import Mathlib

/-!
Verification of the RSS-Feed-Generator feed pipeline.

The repository contains several revisions of one feed-generation pipeline:
`src/functions/rss-generator/src/main.js` (the deployed Appwrite function),
`src/services/geminiService.ts` (the browser-side revision),
`src/unnamed/part_005` (the "v5.1" hardened function revision) and
`src/unnamed/part_007` (the browser revision with deep image extraction),
plus the read path `src/services/storageService.ts` (`parseXMLToFeed`).

Strings are modelled as `List Char` (`Str`).  JavaScript's string methods,
`JSON.parse`, the regexes the code uses, and the DOM facilities used by
`parseXMLToFeed` (DOMParser text content, `textarea` entity decoding) are
modelled explicitly below, next to the functions that use them.  Network
results (page fetches, LLM responses) are parameters of the embedded
functions, which is where the real code performs I/O.
-/

namespace RSSGen

/-- Strings are modelled as lists of characters. -/
abbrev Str := List Char

/-- Convenience coercion from Lean string literals. -/
def str (s : String) : Str := s.toList

/-- JavaScript whitespace class `\s` (the characters relevant to this code
base: space, tab, newline, carriage return, form feed, vertical tab). -/
def isWs (c : Char) : Bool :=
  c = ' ' || c = '\t' || c = '\n' || c = '\r' || c = '\x0c' || c = '\x0b'

/-- JS `String.prototype.trim` (both ends). -/
def jsTrim (s : Str) : Str :=
  ((s.dropWhile isWs).reverse.dropWhile isWs).reverse

/-- Substring occurrence test (JS `String.prototype.includes`). -/
def containsSubstr (pat : Str) : Str → Bool
  | [] => pat.isPrefixOf []
  | c :: rest => pat.isPrefixOf (c :: rest) || containsSubstr pat rest

/-- Character index of the first occurrence of `pat`, if any
(JS `String.prototype.indexOf` when the result is not `-1`). -/
def firstIdx (pat : Str) : Str → Option Nat
  | [] => if pat.isPrefixOf ([] : Str) then some 0 else none
  | c :: rest =>
    if pat.isPrefixOf (c :: rest) then some 0
    else (firstIdx pat rest).map (· + 1)

/-- Character index of the first occurrence of a single character, if any. -/
def firstIdxChar (ch : Char) : Str → Option Nat
  | [] => none
  | c :: rest => if c = ch then some 0 else (firstIdxChar ch rest).map (· + 1)

/-- Character index of the last occurrence of a single character, if any
(JS `String.prototype.lastIndexOf`). -/
def lastIdxChar (ch : Char) (s : Str) : Option Nat :=
  (firstIdxChar ch s.reverse).map (fun i => s.length - 1 - i)

/-- Lower-casing, character by character (JS `String.prototype.toLowerCase`
restricted to the one-to-one case mappings this code relies on). -/
def lowerStr (s : Str) : Str := s.map Char.toLower

/-- JS falsy-string defaulting: `a || b` for strings (empty string is falsy). -/
def jsOr (a b : Str) : Str := if a = [] then b else a

end RSSGen

namespace RSSGen

/-- Replacement performed on one character by the regex callback in
`escapeXml` (`main.js` lines 104-113): the five XML metacharacters become
named entities, everything else is kept. -/
def escChar (c : Char) : Str :=
  if c = '<' then str "&lt;"
  else if c = '>' then str "&gt;"
  else if c = '&' then str "&amp;"
  else if c = '\'' then str "&apos;"
  else if c = '"' then str "&quot;"
  else [c]

/-- Character class `[\x00-\x08\x0B\x0C\x0E-\x1F\x7F]` stripped by
`escapeXml` (`main.js` line 115): the XML-1.0-invalid control bytes. -/
def isXmlInvalidCtl (c : Char) : Bool :=
  (c.toNat ≤ 0x08) || c.toNat = 0x0B || c.toNat = 0x0C ||
  (0x0E ≤ c.toNat && c.toNat ≤ 0x1F) || c.toNat = 0x7F

/-- Strip the XML-1.0-invalid control bytes (second `.replace` of
`escapeXml`). -/
def stripCtlXml (s : Str) : Str := s.filter (fun c => !isXmlInvalidCtl c)

/-- `escapeXml` from `main.js` lines 101-116 on a string input: replace the
five XML metacharacters by entities, then strip invalid control bytes. -/
def escapeXml (s : Str) : Str := stripCtlXml (s.flatMap escChar)

/-- `escapeXml` including the null/undefined guard of `main.js` line 102
(`null` and `undefined` map to the empty string). -/
def escapeXmlOpt : Option Str → Str
  | none => []
  | some s => escapeXml s

/-- `String.prototype.replace(/]]>/g, rep)` specialised to the pattern
`]]>` used by `cdata`. -/
def replaceCdataEnd (rep : Str) : Str → Str
  | [] => []
  | ']' :: ']' :: '>' :: rest => rep ++ replaceCdataEnd rep rest
  | c :: rest => c :: replaceCdataEnd rep rest

/-- `cdata` from `main.js` lines 118-122: wrap in a CDATA section, splitting
any internal `]]>` so the section stays well-formed. -/
def cdata (s : Str) : Str :=
  str "<![CDATA[" ++ replaceCdataEnd (str "]]]]><![CDATA[>") s ++ str "]]>"

/-- After an `&`, one of the five entity tails produced by the escaper must
follow. -/
def ampHeadOk (rest : Str) : Bool :=
  (str "amp;").isPrefixOf rest || (str "lt;").isPrefixOf rest ||
  (str "gt;").isPrefixOf rest || (str "apos;").isPrefixOf rest ||
  (str "quot;").isPrefixOf rest

/-- Boolean scanner: every `&` in the string starts one of the five named
entities produced by `escapeXml`. -/
def ampEntityOk : Str → Bool
  | [] => true
  | c :: rest => (if c = '&' then ampHeadOk rest else true) && ampEntityOk rest

/-- Boolean scanner: the string contains none of `<`, `>`, `"`, `'` and no
XML-1.0-invalid control byte. -/
def xmlSafeChars (s : Str) : Bool :=
  s.all (fun c => !(c = '<' || c = '>' || c = '"' || c = '\'' || isXmlInvalidCtl c))

end RSSGen

namespace RSSGen

theorem escapeXml_cons (c : Char) (s : Str) :
    escapeXml (c :: s) = stripCtlXml (escChar c) ++ escapeXml s := by
  simp [escapeXml, stripCtlXml]

theorem xmlSafeChars_append (a b : Str) :
    xmlSafeChars (a ++ b) = (xmlSafeChars a && xmlSafeChars b) := by
  simp [xmlSafeChars]

theorem xmlSafeChars_escapeXml (s : Str) : xmlSafeChars (escapeXml s) = true := by
  induction s with
  | nil => rfl
  | cons c rest ih =>
    rw [escapeXml_cons, xmlSafeChars_append, ih, Bool.and_true]
    by_cases h1 : c = '<'
    · subst h1; decide
    by_cases h2 : c = '>'
    · subst h2; decide
    by_cases h3 : c = '&'
    · subst h3; decide
    by_cases h4 : c = '\''
    · subst h4; decide
    by_cases h5 : c = '"'
    · subst h5; decide
    simp [escChar, h1, h2, h3, h4, h5, stripCtlXml, xmlSafeChars]

theorem ampEntityOk_escapeXml (s : Str) : ampEntityOk (escapeXml s) = true := by
  induction s with
  | nil => rfl
  | cons c rest ih =>
    rw [escapeXml_cons]
    by_cases h1 : c = '<'
    · subst h1
      have he : stripCtlXml (escChar '<') = ['&', 'l', 't', ';'] := by decide
      rw [he]
      simp only [List.cons_append, ampEntityOk, ampHeadOk]
      simp [str, List.isPrefixOf, ih]
    by_cases h2 : c = '>'
    · subst h2
      have he : stripCtlXml (escChar '>') = ['&', 'g', 't', ';'] := by decide
      rw [he]
      simp only [List.cons_append, ampEntityOk, ampHeadOk]
      simp [str, List.isPrefixOf, ih]
    by_cases h3 : c = '&'
    · subst h3
      have he : stripCtlXml (escChar '&') = ['&', 'a', 'm', 'p', ';'] := by decide
      rw [he]
      simp only [List.cons_append, ampEntityOk, ampHeadOk]
      simp [str, List.isPrefixOf, ih]
    by_cases h4 : c = '\''
    · subst h4
      have he : stripCtlXml (escChar '\'') = ['&', 'a', 'p', 'o', 's', ';'] := by
        decide
      rw [he]
      simp only [List.cons_append, ampEntityOk, ampHeadOk]
      simp [str, List.isPrefixOf, ih]
    by_cases h5 : c = '"'
    · subst h5
      have he : stripCtlXml (escChar '"') = ['&', 'q', 'u', 'o', 't', ';'] := by
        decide
      rw [he]
      simp only [List.cons_append, ampEntityOk, ampHeadOk]
      simp [str, List.isPrefixOf, ih]
    by_cases hc : isXmlInvalidCtl c
    · simpa [escChar, h1, h2, h3, h4, h5, stripCtlXml, hc] using ih
    · simpa [escChar, h1, h2, h3, h4, h5, stripCtlXml, hc, ampEntityOk] using ih

end RSSGen

namespace RSSGen

/-- C10: for every input value (with null/undefined mapping to the empty
string), the output of `escapeXml` contains none of `<`, `>`, `"`, `'`,
contains no XML-1.0-invalid control byte (0x00-0x08, 0x0B, 0x0C, 0x0E-0x1F,
0x7F), and every `&` in the output begins one of the five named entities
produced by the escaper. -/
theorem C10_escapeXml_output_safe (v : Option Str) :
    escapeXmlOpt none = [] ∧
    xmlSafeChars (escapeXmlOpt v) = true ∧
    ampEntityOk (escapeXmlOpt v) = true := by
  refine ⟨rfl, ?_, ?_⟩
  · cases v with
    | none => rfl
    | some s => exact xmlSafeChars_escapeXml s
  · cases v with
    | none => rfl
    | some s => exact ampEntityOk_escapeXml s

end RSSGen

namespace RSSGen

/-- Decimal digit test. -/
def isDecDigit (c : Char) : Bool := 48 ≤ c.toNat && c.toNat ≤ 57

/-- Hexadecimal digit test. -/
def isHexDigit (c : Char) : Bool :=
  isDecDigit c || (97 ≤ c.toNat && c.toNat ≤ 102) || (65 ≤ c.toNat && c.toNat ≤ 70)

/-- Numeric value of a decimal digit. -/
def decVal (c : Char) : Nat := c.toNat - 48

/-- Numeric value of a hexadecimal digit. -/
def hexVal (c : Char) : Nat :=
  if isDecDigit c then c.toNat - 48
  else if 97 ≤ c.toNat then c.toNat - 87
  else c.toNat - 55

/-- Accumulate a digit list in the given base. -/
def digitsToNat (base : Nat) (ds : List Nat) : Nat :=
  ds.foldl (fun a d => a * base + d) 0

/-- Digits part of JS `parseInt` (radix unspecified): after the optional
sign, a `0x`/`0X` prefix selects hexadecimal, otherwise decimal; the longest
digit prefix is taken and trailing garbage ignored; no digits means `NaN`
(modelled as `none`). -/
def parseIntCore (t : Str) : Option Nat :=
  if (str "0x").isPrefixOf t || (str "0X").isPrefixOf t then
    let ds := (t.drop 2).takeWhile isHexDigit
    if ds = [] then none else some (digitsToNat 16 (ds.map hexVal))
  else
    let ds := t.takeWhile isDecDigit
    if ds = [] then none else some (digitsToNat 10 (ds.map decVal))

/-- JS `parseInt(s)`: strip leading whitespace, optional sign, then digits;
`none` models `NaN`. -/
def parseIntJS (s : Str) : Option Int :=
  match s.dropWhile isWs with
  | '-' :: r => (parseIntCore r).map (fun n => -(n : Int))
  | '+' :: r => (parseIntCore r).map (fun n => (n : Int))
  | t => (parseIntCore t).map (fun n => (n : Int))

/-- `parseInt(req.query.cache) || 3600` (`main.js` line 16): an absent
parameter parses to `NaN`; `NaN` and `0` are falsy and default to 3600. -/
def effectiveCacheTime (cacheParam : Option Str) : Int :=
  match cacheParam.bind parseIntJS with
  | none => 3600
  | some n => if n = 0 then 3600 else n

/-- `Math.max(60, Math.min(604800, cacheTime))` (`main.js` line 19). -/
def clampCache (n : Int) : Int := max 60 (min 604800 n)

/-- Integer rendered into the `Cache-Control` header template string. -/
def intToStr (n : Int) : Str := str (toString n)

/-- Result of the Appwrite handler: either `res.json(err, status)` or
`res.send(body, status, headers)`. -/
inductive HandlerResult where
  | jsonErr (status : Nat) (msg : Str)
  | sendOk (body : Str) (status : Nat) (contentType : Str) (cacheControl : Str)
deriving DecidableEq

/-- The entry point of `main.js` lines 14-43.  `urlParam` is
`req.query.url || req.body.url` (absent = `undefined`), `cacheParam` is
`req.query.cache`, and `genResult` stands for the awaited
`generateRSSFromURL` call (its network effects are not modelled here):
`.ok xml` when generation succeeds, `.error e` when it throws. -/
def handlerMain (urlParam cacheParam : Option Str) (genResult : Except Str Str) :
    HandlerResult :=
  let url := match urlParam with | none => [] | some u => u
  let finalCacheTime := clampCache (effectiveCacheTime cacheParam)
  if url = [] then .jsonErr 400 (str "Missing 'url' parameter")
  else
    match genResult with
    | .error e => .jsonErr 500 e
    | .ok rssXml =>
      .sendOk rssXml 200 (str "application/xml")
        (str "public, max-age=" ++ intToStr finalCacheTime)

end RSSGen

namespace RSSGen

/-- C9 counterexample: with cache parameter `"0"` the handler emits
`max-age=3600`, while the claimed clamping of the parsed value 0 to
`[60, 604800]` would give 60.  `parseInt` yields 0, which is falsy in JS, so
the default 3600 replaces it before clamping. -/
theorem C9_cache_zero_counterexample :
    parseIntJS (str "0") = some 0 ∧
    clampCache 0 = 60 ∧
    handlerMain (some (str "https://example.com")) (some (str "0"))
        (.ok (str "<rss/>")) =
      .sendOk (str "<rss/>") 200 (str "application/xml")
        (str "public, max-age=3600") ∧
    str "public, max-age=3600" ≠ str "public, max-age=60" := by
  refine ⟨by decide, by decide, by decide, by decide⟩

/-- C9 as amended: the emitted `max-age` is the cache parameter clamped to
`[60, 604800]`, where a missing or non-numeric parameter — and also a
parameter parsing to 0, since `parseInt(c) || 3600` treats 0 as falsy —
defaults to 3600 before clamping; the success response carries content-type
`application/xml` and always respects the clamp bounds. -/
theorem C9_cache_clamped (u : Str) (c : Option Str) (rss : Str) (hu : u ≠ []) :
    handlerMain (some u) c (.ok rss) =
      .sendOk rss 200 (str "application/xml")
        (str "public, max-age=" ++ intToStr (clampCache (effectiveCacheTime c))) ∧
    (c.bind parseIntJS = none → effectiveCacheTime c = 3600) ∧
    (∀ n : Int, c.bind parseIntJS = some n → n ≠ 0 → effectiveCacheTime c = n) ∧
    60 ≤ clampCache (effectiveCacheTime c) ∧
    clampCache (effectiveCacheTime c) ≤ 604800 := by
  refine ⟨?_, ?_, ?_, ?_, ?_⟩
  · simp [handlerMain, hu]
  · intro h; simp [effectiveCacheTime, h]
  · intro n h hn; simp [effectiveCacheTime, h, hn]
  · simp [clampCache]
  · simp [clampCache]

/-- C9 amended-claim witness at concrete inputs. -/
theorem C9_cache_clamped_witness :
    handlerMain (some (str "https://example.com")) (some (str "99")) (.ok (str "x")) =
      .sendOk (str "x") 200 (str "application/xml")
        (str "public, max-age=" ++
          intToStr (clampCache (effectiveCacheTime (some (str "99"))))) ∧
    clampCache (effectiveCacheTime (some (str "99"))) = 99 := by
  refine ⟨(C9_cache_clamped (str "https://example.com") (some (str "99"))
    (str "x") (by decide)).1, by decide⟩

end RSSGen

namespace RSSGen

/-- End position (exclusive) of the first `wp-content` occurrence in `l`. -/
def wpEnd (l : Str) : Option Nat := (firstIdx (str "wp-content") l).map (· + 10)

/-- The negative lookbehind `(?<!wp-content.*)` at position `i`: it passes
iff no complete `wp-content` occurrence lies inside the prefix before `i`;
with all occurrences 10 characters long this is `i <` the end of the first
occurrence. -/
def beforeWp (l : Str) (i : Nat) : Bool :=
  match wpEnd l with
  | none => true
  | some e => i < e

/-- The test `finalImage.match(/(?<!wp-content.*)logo|(?<!wp-content.*)icon|avatar/i)`
of `main.js` line 236: a case-insensitive `logo` or `icon` occurrence not
preceded by a completed `wp-content`, or any `avatar` occurrence.  Taking
the first `logo`/`icon` occurrence is sufficient: it minimises the position
the lookbehind constrains. -/
def disallowMain (s : Str) : Bool :=
  let l := lowerStr s
  (match firstIdx (str "logo") l with
   | some i => beforeWp l i
   | none => false) ||
  (match firstIdx (str "icon") l with
   | some i => beforeWp l i
   | none => false) ||
  containsSubstr (str "avatar") l

/-- The discard step of `main.js` line 236 applied to the resolved image
URL: cleared when the disallow regex matches and the URL does not contain
`uploads` (case-sensitive `includes`). -/
def filterImageMain (s : Str) : Option Str :=
  if s ≠ [] && disallowMain s && !containsSubstr (str "uploads") s then none
  else some s

/-- Lines 233-237 of `main.js`: normalize `item.image` against the page URL
(`resolve` models `new URL(img, url).href`, `none` modelling the swallowed
exception), then apply the disallow filter.  An absent or empty image skips
the block (empty string is falsy in JS). -/
def imageStepMain (resolve : Str → Str → Option Str) (url : Str) :
    Option Str → Option Str
  | none => none
  | some img =>
    if img = [] then some []
    else filterImageMain ((resolve img url).getD img)

/-- Lines 239-257 of `main.js`: when a link exists and no image survived,
fetch the article page and mine its meta tags for an image
(`discover` models that network-dependent block: `none` when the fetch
fails, yields nothing, or no meta tag matches); any failure leaves the item
without an image.  `jsTruthyOpt` is JS truthiness of a nullable string, used
by the `if (finalLink && !finalImage)` gate. -/
def jsTruthyOpt : Option Str → Bool
  | none => false
  | some s => s ≠ []

def itemImageMain (resolve : Str → Str → Option Str) (discover : Str → Option Str)
    (url finalLink : Str) (image : Option Str) : Option Str :=
  let fi := imageStepMain resolve url image
  if finalLink ≠ [] && !jsTruthyOpt fi then
    match discover finalLink with
    | some u => some u
    | none => fi
  else fi

/-- `isLogo` from `src/unnamed/part_007` lines 238-242: case-insensitive
substring test for `logo`, `icon`, `avatar`, `placeholder` or the tracking
pixel marker. -/
def isLogoP7 (s : Str) : Bool :=
  let l := lowerStr s
  containsSubstr (str "logo") l || containsSubstr (str "icon") l ||
  containsSubstr (str "avatar") l || containsSubstr (str "placeholder") l ||
  containsSubstr (str "tr?id=") l

/-- Lines 235-253 of `src/unnamed/part_007`: the raw extracted image is
cleared whenever `isLogo` matches (no `uploads` exception in this revision);
a surviving image is then resolved against the page URL. -/
def imageStepP7 (resolve : Str → Str → Option Str) (url : Str) :
    Option Str → Option Str
  | none => none
  | some img =>
    if img = [] then some []
    else if isLogoP7 img then none
    else some ((resolve img url).getD img)

end RSSGen

namespace RSSGen

theorem containsSubstr_isSome_firstIdx (p s : Str) :
    containsSubstr p s = (firstIdx p s).isSome := by
  induction s with
  | nil =>
    by_cases h : p.isPrefixOf ([] : Str) <;> simp [containsSubstr, firstIdx, h]
  | cons c rest ih =>
    by_cases h : p.isPrefixOf (c :: rest) <;>
      simp [containsSubstr, firstIdx, h, ih]

/-- C3 counterexample: the claimed disallow list and uploads exception match
neither revision.  In `main.js` a `placeholder` URL is kept (the regex only
covers logo/icon/avatar), although the claim says it is discarded; in
`part_007` a URL containing both `uploads` and `logo` is cleared (no uploads
exception), although the claim says it is kept. -/
theorem C3_image_filter_counterexample :
    imageStepMain (fun i _ => some i) (str "https://ex.com")
        (some (str "https://ex.com/images/placeholder.png")) =
      some (str "https://ex.com/images/placeholder.png") ∧
    containsSubstr (str "placeholder")
        (lowerStr (str "https://ex.com/images/placeholder.png")) = true ∧
    containsSubstr (str "uploads") (str "https://ex.com/images/placeholder.png")
        = false ∧
    imageStepP7 (fun i _ => some i) (str "https://ex.com")
        (some (str "https://ex.com/wp-content/uploads/logo.png")) = none ∧
    containsSubstr (str "uploads")
        (str "https://ex.com/wp-content/uploads/logo.png") = true ∧
    containsSubstr (str "logo")
        (lowerStr (str "https://ex.com/wp-content/uploads/logo.png")) = true := by
  refine ⟨by decide, by decide, by decide, by decide, by decide, by decide⟩

/-- C3 as amended (the `main.js` revision): the resolved image is discarded
and secondary discovery attempted when the disallow regex (case-insensitive
`logo` or `icon` not preceded by `wp-content`, or `avatar`) matches and the
URL does not contain `uploads`; a URL containing `uploads` is always kept
(in particular one containing both `uploads` and `logo`); `placeholder` and
tracking-pixel markers are not part of this revision's disallow list, and
`part_007`'s `isLogo` list has them but lacks the uploads exception. -/
theorem C3_image_filter_amended (resolve : Str → Str → Option Str)
    (discover : Str → Option Str) (url finalLink img : Str) (himg : img ≠ []) :
    (containsSubstr (str "uploads") ((resolve img url).getD img) = true →
      imageStepMain resolve url (some img) = some ((resolve img url).getD img)) ∧
    (disallowMain ((resolve img url).getD img) = true →
      containsSubstr (str "uploads") ((resolve img url).getD img) = false →
      (resolve img url).getD img ≠ [] →
      imageStepMain resolve url (some img) = none) ∧
    (∀ s : Str, containsSubstr (str "avatar") (lowerStr s) = true →
      disallowMain s = true) ∧
    (∀ s : Str, firstIdx (str "wp-content") (lowerStr s) = none →
      containsSubstr (str "logo") (lowerStr s) = true → disallowMain s = true) ∧
    (finalLink ≠ [] → imageStepMain resolve url (some img) = none →
      itemImageMain resolve discover url finalLink (some img) =
        (discover finalLink).orElse (fun _ => none)) := by
  refine ⟨?_, ?_, ?_, ?_, ?_⟩
  · intro hup
    simp [imageStepMain, himg, filterImageMain, hup]
  · intro hdis hup hne
    simp [imageStepMain, himg, filterImageMain, hdis, hup, hne]
  · intro s hav
    simp [disallowMain, hav]
  · intro s hwp hlogo
    rw [containsSubstr_isSome_firstIdx] at hlogo
    rcases Option.isSome_iff_exists.mp hlogo with ⟨i, hi⟩
    simp [disallowMain, hi, beforeWp, wpEnd, hwp]
  · intro hl hnone
    simp [itemImageMain, hnone, hl, jsTruthyOpt]
    cases discover finalLink <;> simp [Option.orElse]

/-- C3 amended-claim witness at concrete inputs. -/
theorem C3_image_filter_amended_witness :
    (str "https://ex.com/a/logo.png" : Str) ≠ [] ∧
    imageStepMain (fun i _ => some i) (str "https://ex.com")
        (some (str "https://ex.com/a/logo.png")) = none ∧
    imageStepMain (fun i _ => some i) (str "https://ex.com")
        (some (str "https://ex.com/uploads/logo.png")) =
      some (str "https://ex.com/uploads/logo.png") := by
  refine ⟨by decide, ?_, ?_⟩
  · exact (C3_image_filter_amended (fun i _ => some i) (fun _ => none)
      (str "https://ex.com") (str "https://ex.com/p") (str "https://ex.com/a/logo.png")
      (by decide)).2.1 (by decide) (by decide) (by decide)
  · exact (C3_image_filter_amended (fun i _ => some i) (fun _ => none)
      (str "https://ex.com") (str "https://ex.com/p")
      (str "https://ex.com/uploads/logo.png") (by decide)).1 (by decide)

end RSSGen

namespace RSSGen

/-- JSON values as produced by `JSON.parse`.  Numbers keep their source
lexeme (none of the claims depends on numeric value arithmetic); object
fields keep their document order, with later duplicates overriding earlier
ones at lookup time, as JS object construction does. -/
inductive JVal where
  | jnull
  | jbool (b : Bool)
  | jnum (lexeme : Str)
  | jstr (s : Str)
  | jarr (elems : List JVal)
  | jobj (fields : List (Str × JVal))

/-- JSON whitespace. -/
def skipJsonWs (s : Str) : Str :=
  s.dropWhile (fun c => c = ' ' || c = '\t' || c = '\n' || c = '\r')

/-- Four hexadecimal digits, as in a `\uXXXX` escape. -/
def hex4 : Str → Option (Nat × Str)
  | a :: b :: c :: d :: r =>
    if isHexDigit a && isHexDigit b && isHexDigit c && isHexDigit d then
      some (((hexVal a * 16 + hexVal b) * 16 + hexVal c) * 16 + hexVal d, r)
    else none
  | _ => none

/-- Body of a JSON string literal (after the opening quote): decoded
characters and the remainder after the closing quote.  Unescaped control
characters below 0x20 are rejected, as `JSON.parse` rejects them; `\uXXXX`
that denotes a lone surrogate is out of `Char`'s range and maps to the
default character (no claim depends on it). -/
def parseJStrChars : Nat → Str → Except Str (Str × Str)
  | 0, _ => .error (str "JSON string too long")
  | fuel + 1, s =>
    match s with
    | [] => .error (str "Unterminated string in JSON")
    | '"' :: r => .ok ([], r)
    | '\\' :: e :: r =>
      match e with
      | '"' => (parseJStrChars fuel r).map (fun p => ('"' :: p.1, p.2))
      | '\\' => (parseJStrChars fuel r).map (fun p => ('\\' :: p.1, p.2))
      | '/' => (parseJStrChars fuel r).map (fun p => ('/' :: p.1, p.2))
      | 'b' => (parseJStrChars fuel r).map (fun p => ('\x08' :: p.1, p.2))
      | 'f' => (parseJStrChars fuel r).map (fun p => ('\x0c' :: p.1, p.2))
      | 'n' => (parseJStrChars fuel r).map (fun p => ('\n' :: p.1, p.2))
      | 'r' => (parseJStrChars fuel r).map (fun p => ('\r' :: p.1, p.2))
      | 't' => (parseJStrChars fuel r).map (fun p => ('\t' :: p.1, p.2))
      | 'u' =>
        match hex4 r with
        | some (n, r2) =>
          (parseJStrChars fuel r2).map (fun p => (Char.ofNat n :: p.1, p.2))
        | none => .error (str "Bad Unicode escape in JSON")
      | _ => .error (str "Bad escape in JSON string")
    | c :: r =>
      if c.toNat < 32 then .error (str "Bad control character in JSON string")
      else (parseJStrChars fuel r).map (fun p => (c :: p.1, p.2))

/-- Exponent part of a JSON number. -/
def parseJNumExp (lex : Str) (e : Char) (s : Str) : Except Str (JVal × Str) :=
  let (sgn, s1) : Str × Str :=
    match s with
    | '+' :: r => (['+'], r)
    | '-' :: r => (['-'], r)
    | _ => ([], s)
  let ds := s1.takeWhile isDecDigit
  if ds = [] then .error (str "Bad exponent in JSON")
  else .ok (.jnum (lex ++ e :: sgn ++ ds), s1.drop ds.length)

/-- Optional exponent after the integer/fraction part of a JSON number. -/
def parseJNumTail (lex : Str) (s : Str) : Except Str (JVal × Str) :=
  match s with
  | 'e' :: r => parseJNumExp lex 'e' r
  | 'E' :: r => parseJNumExp lex 'E' r
  | _ => .ok (.jnum lex, s)

/-- Optional fraction after the integer part of a JSON number. -/
def parseJNumFrac (lex : Str) (s : Str) : Except Str (JVal × Str) :=
  match s with
  | '.' :: r =>
    let ds := r.takeWhile isDecDigit
    if ds = [] then .error (str "Bad number in JSON")
    else parseJNumTail (lex ++ '.' :: ds) (r.drop ds.length)
  | _ => parseJNumTail lex s

/-- Number literal per the JSON grammar (sign, integer part with no leading
zero, optional fraction, optional exponent); the consumed lexeme is kept. -/
def parseJNum (s : Str) : Except Str (JVal × Str) :=
  let (sign, s1) : Str × Str :=
    match s with
    | '-' :: r => (['-'], r)
    | _ => ([], s)
  match s1 with
  | '0' :: r => parseJNumFrac (sign ++ ['0']) r
  | _ =>
    let ds := s1.takeWhile isDecDigit
    if ds = [] then .error (str "Unexpected token in JSON number")
    else parseJNumFrac (sign ++ ds) (s1.drop ds.length)

end RSSGen

namespace RSSGen

mutual

/-- Recursive-descent JSON value parser (model of `JSON.parse`); the fuel is
an upper bound on the recursion depth, amply covered by the top-level call. -/
def parseJVal : Nat → Str → Except Str (JVal × Str)
  | 0, _ => .error (str "JSON too deeply nested")
  | fuel + 1, s0 =>
    let s := skipJsonWs s0
    if (str "null").isPrefixOf s then .ok (.jnull, s.drop 4)
    else if (str "true").isPrefixOf s then .ok (.jbool true, s.drop 4)
    else if (str "false").isPrefixOf s then .ok (.jbool false, s.drop 5)
    else
      match s with
      | '"' :: r =>
        match parseJStrChars (r.length + 1) r with
        | .error e => .error e
        | .ok (cs, r2) => .ok (.jstr cs, r2)
      | '[' :: r =>
        match skipJsonWs r with
        | ']' :: r2 => .ok (.jarr [], r2)
        | t => parseJArrItems fuel t []
      | '{' :: r =>
        match skipJsonWs r with
        | '}' :: r2 => .ok (.jobj [], r2)
        | t => parseJObjItems fuel t []
      | c :: _ =>
        if c = '-' || isDecDigit c then parseJNum s
        else .error (str "Unexpected token in JSON")
      | [] => .error (str "Unexpected end of JSON input")

/-- Comma-separated array items, accumulating in document order. -/
def parseJArrItems : Nat → Str → List JVal → Except Str (JVal × Str)
  | 0, _, _ => .error (str "JSON too deeply nested")
  | fuel + 1, s, acc =>
    match parseJVal fuel s with
    | .error e => .error e
    | .ok (v, r) =>
      match skipJsonWs r with
      | ',' :: r2 => parseJArrItems fuel r2 (acc ++ [v])
      | ']' :: r2 => .ok (.jarr (acc ++ [v]), r2)
      | _ => .error (str "Expected comma or bracket in JSON array")

/-- Comma-separated object members, accumulating in document order. -/
def parseJObjItems : Nat → Str → List (Str × JVal) → Except Str (JVal × Str)
  | 0, _, _ => .error (str "JSON too deeply nested")
  | fuel + 1, s, acc =>
    match skipJsonWs s with
    | '"' :: r =>
      match parseJStrChars (r.length + 1) r with
      | .error e => .error e
      | .ok (k, r2) =>
        match skipJsonWs r2 with
        | ':' :: r3 =>
          match parseJVal fuel r3 with
          | .error e => .error e
          | .ok (v, r4) =>
            match skipJsonWs r4 with
            | ',' :: r5 => parseJObjItems fuel r5 (acc ++ [(k, v)])
            | '}' :: r5 => .ok (.jobj (acc ++ [(k, v)]), r5)
            | _ => .error (str "Expected comma or brace in JSON object")
        | _ => .error (str "Expected colon in JSON object")
    | _ => .error (str "Expected string key in JSON object")

end

/-- `JSON.parse`: parse one value and insist nothing but whitespace follows. -/
def jsonParse (s : Str) : Except Str JVal :=
  match parseJVal (s.length + 2) s with
  | .error e => .error e
  | .ok (v, rest) =>
    if skipJsonWs rest = [] then .ok v
    else .error (str "Unexpected token after JSON value")

/-- Property access `v[k]` on a parsed JSON value: `none` models
`undefined`; later duplicate keys override earlier ones. -/
def objGet (v : JVal) (k : Str) : Option JVal :=
  match v with
  | .jobj fs => ((fs.reverse.find? (fun p => p.1 == k)).map (fun p => p.2))
  | _ => none

/-- `Array.isArray(parsedData.items) ? parsedData.items : []`
(`main.js` line 217, `geminiService.ts` line 121), for the parse results on
which the member access itself succeeds. -/
def itemsOf (v : JVal) : List JVal :=
  match objGet v (str "items") with
  | some (.jarr l) => l
  | _ => []

/-- The full `Array.isArray(parsedData.items) ? parsedData.items : []` step
including its error path: when `parsedData` is `null` (the model text
`"null"` parses to it), the member access `parsedData.items` itself throws
a `TypeError` (`main.js` line 217, `geminiService.ts` line 121) and the
pipeline fails; on every other parse result the access yields the field,
or `undefined`, and the `Array.isArray` guard turns non-arrays into zero
items. -/
def itemsJS : JVal → Except Str (List JVal)
  | .jnull =>
    .error (str "TypeError: Cannot read properties of null (reading 'items')")
  | v => .ok (itemsOf v)

end RSSGen

namespace RSSGen

/-- Strip trailing JS whitespace. -/
def dropTrailingWsStr (s : Str) : Str := (s.reverse.dropWhile isWs).reverse

/-- JS `String.prototype.endsWith`. -/
def jsEndsWith (pat s : Str) : Bool := pat.reverse.isPrefixOf s.reverse

/-- The optional `(?:json)?` marker after the opening fence. -/
def skipJsonTag (s : Str) : Str :=
  if (str "json").isPrefixOf s then s.drop 4 else s

/-- Attempt of `/```(?:json)?\s*([\s\S]*?)\s*```/` at a position where the
subject starts with three backticks: skip the optional `json` marker and the
greedy `\s*`; the lazy group then ends before the first closing fence, with
the whitespace run immediately before it going to the trailing `\s*`.
Returns the captured group and the text after the whole match. -/
def fenceMatchAt (s : Str) : Option (Str × Str) :=
  let t := (skipJsonTag (s.drop 3)).dropWhile isWs
  match firstIdx (str "```") t with
  | none => none
  | some m => some (dropTrailingWsStr (t.take m), t.drop (m + 3))

/-- First match of the fence regex over the whole subject (JS
`String.prototype.match` without the global flag): positions are tried left
to right, and a position where no closing fence follows fails, moving on to
the next position. -/
def fenceFirstMatch : Str → Option Str
  | [] => none
  | c :: rest =>
    if (str "```").isPrefixOf (c :: rest) then
      match fenceMatchAt (c :: rest) with
      | some (g, _) => some g
      | none => fenceFirstMatch rest
    else fenceFirstMatch rest

/-- Character class `[\x00-\x1F\x7F]` stripped by the decoders before
parsing (`main.js` line 202). -/
def isJsonCtl (c : Char) : Bool := c.toNat ≤ 0x1F || c.toNat = 0x7F

/-- Strip the control characters the decoder removes before `JSON.parse`. -/
def stripCtlJson (s : Str) : Str := s.filter (fun c => !isJsonCtl c)

/-- `cleanContent.replace(/\\u(?![0-9a-fA-F]{4})/g, "\\\\u")`
(`main.js` line 203): double-escape a literal `\u` that is not followed by
four hex digits. -/
def fixBadUnicode : Str → Str
  | [] => []
  | '\\' :: 'u' :: r =>
    if (hex4 r).isSome then '\\' :: 'u' :: fixBadUnicode r
    else '\\' :: '\\' :: 'u' :: fixBadUnicode r
  | c :: r => c :: fixBadUnicode r

/-- The repaired text handed to the first `JSON.parse` attempt in `main.js`
lines 196-203 (and identically in `part_007` lines 183-201): strip a
markdown fence if one matches, remove control characters, then double-escape
bad unicode escapes. -/
def cleanContentMain (content : Str) : Str :=
  let cc :=
    match fenceFirstMatch content with
    | some g => g
    | none => content
  fixBadUnicode (stripCtlJson cc)

/-- The decoder of `main.js` lines 194-215: repaired parse first, then the
first-brace-to-last-brace substring retry; with no braces at all the decoder
throws `Failed to parse AI response JSON`, and a failing substring retry
lets that parse error propagate (there is no inner catch in this
revision). -/
def decodeMain (content : Str) : Except Str JVal :=
  match jsonParse (cleanContentMain content) with
  | .ok v => .ok v
  | .error _ =>
    match firstIdxChar '{' content, lastIdxChar '}' content with
    | some i, some j => jsonParse ((content.drop i).take (j + 1 - i))
    | _, _ => .error (str "Failed to parse AI response JSON")

/-- The decoder of `part_007` lines 180-220: same repaired parse and
substring retry, but every failure of the retry (including the no-braces
rethrow) is caught and rewrapped into an error carrying the first parse
error and the first 100 characters of the raw model text. -/
def decodeP7 (content : Str) : Except Str JVal :=
  match jsonParse (cleanContentMain content) with
  | .ok v => .ok v
  | .error e =>
    let fb : Except Str JVal :=
      match firstIdxChar '{' content, lastIdxChar '}' content with
      | some i, some j => jsonParse ((content.drop i).take (j + 1 - i))
      | _, _ => .error e
    match fb with
    | .ok v => .ok v
    | .error _ =>
      .error (str "Failed to parse AI response: " ++ e ++ str ". Raw: " ++
        content.take 100 ++ str "...")

end RSSGen

namespace RSSGen

/-- Wrapping a payload in a markdown ```json fence. -/
def fenceWrap (p : Str) : Str := str "```json\n" ++ p ++ str "\n```"

theorem dropWhile_append_self (p x : Str) (hne : p ≠ [])
    (h : p.dropWhile isWs = p) : (p ++ x).dropWhile isWs = p ++ x := by
  cases p with
  | nil => exact absurd rfl hne
  | cons c t =>
    have hc : isWs c = false := by
      by_contra hc'
      have hc2 : isWs c = true := by
        cases hx : isWs c with
        | false => exact absurd hx hc'
        | true => rfl
      rw [List.dropWhile_cons, hc2] at h
      simp only [if_true] at h
      have hlen := congrArg List.length h
      have hle := (List.dropWhile_suffix (l := t) isWs).length_le
      simp at hlen
      omega
    rw [List.cons_append, List.dropWhile_cons, hc]
    simp

theorem jsTrim_eq_self_parts (p : Str) (h : jsTrim p = p) :
    p.dropWhile isWs = p ∧ p.reverse.dropWhile isWs = p.reverse := by
  have hsuf : (p.dropWhile isWs) <:+ p := List.dropWhile_suffix isWs
  have hlen1 : (jsTrim p).length ≤ (p.dropWhile isWs).length := by
    unfold jsTrim
    have hx := (List.dropWhile_suffix
      (l := (p.dropWhile isWs).reverse) isWs).length_le
    simpa using hx
  have hlen2 : (p.dropWhile isWs).length ≤ p.length :=
    (List.dropWhile_suffix isWs).length_le
  have hfix : p.dropWhile isWs = p := by
    have hplen : p.length ≤ (p.dropWhile isWs).length := by
      rw [h] at hlen1
      exact hlen1
    exact List.IsSuffix.eq_of_length hsuf (Nat.le_antisymm hlen2 hplen)
  refine ⟨hfix, ?_⟩
  have h2 : jsTrim p = (p.reverse.dropWhile isWs).reverse := by
    unfold jsTrim
    rw [hfix]
  rw [h2] at h
  have h3 := congrArg List.reverse h
  simpa using h3

theorem fenceFirstMatch_none_of_no_fence (p : Str)
    (h : containsSubstr (str "```") p = false) : fenceFirstMatch p = none := by
  induction p with
  | nil => rfl
  | cons c rest ih =>
    rw [containsSubstr] at h
    simp only [Bool.or_eq_false_iff] at h
    rw [fenceFirstMatch]
    rw [h.1]
    exact ih h.2

theorem firstIdx_fence_tail (p : Str)
    (h : containsSubstr (str "```") p = false) :
    firstIdx (str "```") (p ++ str "\n```") = some (p.length + 1) := by
  have hstr : str "```" = ['`', '`', '`'] := rfl
  induction p with
  | nil => decide
  | cons c rest ih =>
    rw [containsSubstr] at h
    simp only [Bool.or_eq_false_iff] at h
    have hnp : (str "```").isPrefixOf (c :: (rest ++ str "\n```")) = false := by
      rw [hstr]
      cases rest with
      | nil =>
        by_cases hc : c = '`'
        · subst hc; decide
        · simp [List.isPrefixOf, Ne.symm hc]
      | cons d rest2 =>
        cases rest2 with
        | nil =>
          by_cases hc : c = '`'
          · subst hc
            by_cases hd : d = '`'
            · subst hd; decide
            · simp [List.isPrefixOf, Ne.symm hd]
          · simp [List.isPrefixOf, Ne.symm hc]
        | cons e rest3 =>
          by_cases hc : c = '`'
          · by_cases hd : d = '`'
            · by_cases he : e = '`'
              · exfalso
                subst hc; subst hd; subst he
                have hp3 : (str "```").isPrefixOf ('`' :: '`' :: '`' :: rest3) = true := by
                  rw [hstr]; simp [List.isPrefixOf]
                rw [hp3] at h
                exact absurd h.1 (by simp)
              · subst hc; subst hd
                simp [List.isPrefixOf, Ne.symm he]
            · subst hc
              simp [List.isPrefixOf, Ne.symm hd]
          · simp [List.isPrefixOf, Ne.symm hc]
    rw [List.cons_append, firstIdx, hnp]
    simp only [Bool.false_eq_true, if_false]
    rw [ih h.2]
    simp [List.length_cons]

end RSSGen

namespace RSSGen

theorem fenceFirstMatch_wrap (p : Str) (hnf : containsSubstr (str "```") p = false)
    (htrim : jsTrim p = p) (hne : p ≠ []) :
    fenceFirstMatch (fenceWrap p) = some p := by
  obtain ⟨hL, hR⟩ := jsTrim_eq_self_parts p htrim
  have hlit : str "```json\n" = ['`', '`', '`', 'j', 's', 'o', 'n', '\n'] := rfl
  have hwrap : fenceWrap p =
      '`' :: '`' :: '`' :: 'j' :: 's' :: 'o' :: 'n' :: '\n' :: (p ++ str "\n```") := by
    rw [fenceWrap, hlit]
    simp
  have hmatch : fenceMatchAt (fenceWrap p) =
      some (p, (p ++ str "\n```").drop (p.length + 1 + 3)) := by
    rw [fenceMatchAt]
    have hdrop3 : (fenceWrap p).drop 3 =
        'j' :: 's' :: 'o' :: 'n' :: '\n' :: (p ++ str "\n```") := by
      rw [hwrap]; rfl
    rw [hdrop3]
    have hskip : skipJsonTag ('j' :: 's' :: 'o' :: 'n' :: '\n' :: (p ++ str "\n```")) =
        '\n' :: (p ++ str "\n```") := by
      rw [skipJsonTag]
      have : (str "json").isPrefixOf
          ('j' :: 's' :: 'o' :: 'n' :: '\n' :: (p ++ str "\n```")) = true := by
        have h4 : str "json" = ['j', 's', 'o', 'n'] := rfl
        rw [h4]; simp [List.isPrefixOf]
      rw [this]; rfl
    rw [hskip]
    have hdw : ('\n' :: (p ++ str "\n```")).dropWhile isWs = p ++ str "\n```" := by
      rw [List.dropWhile_cons]
      have : isWs '\n' = true := by decide
      rw [this]
      simp only [if_true]
      exact dropWhile_append_self p _ hne hL
    rw [hdw, firstIdx_fence_tail p hnf]
    have htake : (p ++ str "\n```").take (p.length + 1) = p ++ ['\n'] := by
      rw [List.take_append_eq_append_take]
      have h1 : p.take (p.length + 1) = p := List.take_of_length_le (by omega)
      have h2 : p.length + 1 - p.length = 1 := by omega
      rw [h1, h2]
      rfl
    simp only [Option.map_some]
    rw [htake]
    have hg : dropTrailingWsStr (p ++ ['\n']) = p := by
      rw [dropTrailingWsStr]
      have hrev : (p ++ ['\n']).reverse = '\n' :: p.reverse := by simp
      rw [hrev, List.dropWhile_cons]
      have : isWs '\n' = true := by decide
      rw [this]
      simp only [if_true]
      rw [hR]
      simp
    rw [hg]
  rw [hwrap]
  rw [fenceFirstMatch]
  have hpre : (str "```").isPrefixOf
      ('`' :: '`' :: '`' :: 'j' :: 's' :: 'o' :: 'n' :: '\n' :: (p ++ str "\n```")) = true := by
    have h3 : str "```" = ['`', '`', '`'] := rfl
    rw [h3]; simp [List.isPrefixOf]
  rw [hpre]
  simp only [if_true]
  rw [← hwrap, hmatch]

end RSSGen

namespace RSSGen

/-- The JSON whitespace characters (`JSON.parse` skips them around a
top-level value and between tokens). -/
def isJsonWsChar (c : Char) : Bool :=
  c = ' ' || c = '\t' || c = '\n' || c = '\r'

theorem skipJsonWs_eq_dropWhile (s : Str) :
    skipJsonWs s = s.dropWhile isJsonWsChar := rfl

theorem all_sp_jsonWs (w : Str) (h : w.all (fun c => c = ' ') = true) :
    w.all isJsonWsChar = true := by
  rw [List.all_eq_true] at h ⊢
  intro c hc
  have hx := of_decide_eq_true (h c hc)
  subst hx
  decide

theorem sp_mem (w : Str) (h : w.all (fun c => c = ' ') = true) :
    ∀ c ∈ w, c = ' ' := by
  intro c hc
  exact of_decide_eq_true ((List.all_eq_true.mp h) c hc)

theorem skipJsonWs_ws_append (l x : Str) (hl : l.all isJsonWsChar = true) :
    skipJsonWs (l ++ x) = skipJsonWs x := by
  rw [skipJsonWs_eq_dropWhile, skipJsonWs_eq_dropWhile, List.dropWhile_append]
  have hnil : l.dropWhile isJsonWsChar = [] :=
    List.dropWhile_eq_nil_iff.mpr (fun c hc => (List.all_eq_true.mp hl) c hc)
  rw [hnil]
  rfl

theorem skipJsonWs_cons_of (r : Str) (c : Char) (t w : Str)
    (h : skipJsonWs r = c :: t) :
    skipJsonWs (r ++ w) = c :: (t ++ w) := by
  rw [skipJsonWs_eq_dropWhile] at h ⊢
  rw [List.dropWhile_append, h]
  rfl

theorem skipJsonWs_nil_append (r w : Str) (h : skipJsonWs r = [])
    (hw : w.all isJsonWsChar = true) : skipJsonWs (r ++ w) = [] := by
  rw [skipJsonWs_eq_dropWhile] at h ⊢
  rw [List.dropWhile_append, h]
  have hnil : w.dropWhile isJsonWsChar = [] :=
    List.dropWhile_eq_nil_iff.mpr (fun c hc => (List.all_eq_true.mp hw) c hc)
  simpa using hnil

theorem isPrefixOf_append_pad (pat s w : Str) (h : pat.isPrefixOf s = true) :
    pat.isPrefixOf (s ++ w) = true := by
  rw [List.isPrefixOf_iff_prefix] at h ⊢
  exact h.trans (List.prefix_append s w)

theorem isPrefixOf_nonws_pad (pat : Str)
    (hpat : ∀ c ∈ pat, isJsonWsChar c = false) :
    ∀ (s w : Str), w.all isJsonWsChar = true → pat.isPrefixOf s = false →
      pat.isPrefixOf (s ++ w) = false := by
  induction pat with
  | nil => intro s w _ h; simp [List.isPrefixOf] at h
  | cons a pat ih =>
    intro s w hw h
    cases s with
    | nil =>
      cases w with
      | nil => simpa using h
      | cons d w2 =>
        have hd : isJsonWsChar d = true := (List.all_eq_true.mp hw) d (by simp)
        have ha : isJsonWsChar a = false := hpat a (by simp)
        have hne : (a == d) = false := by
          rw [beq_eq_false_iff_ne]
          intro had
          rw [had, hd] at ha
          exact Bool.noConfusion ha
        simp [List.isPrefixOf, hne]
    | cons b s2 =>
      rw [List.cons_append]
      rw [List.isPrefixOf] at h ⊢
      cases hab : a == b with
      | false => simp
      | true =>
        rw [hab] at h
        simp only [Bool.true_and] at h ⊢
        exact ih (fun c hc => hpat c (by simp [hc])) s2 w hw h

theorem drop_append_pad (s w : Str) (n : Nat) (hn : n ≤ s.length) :
    (s ++ w).drop n = s.drop n ++ w := by
  rw [List.drop_append_eq_append_drop]
  rw [Nat.sub_eq_zero_of_le hn]
  rfl

theorem jsonWs_not_digit (c : Char) (h : isJsonWsChar c = true) :
    isDecDigit c = false := by
  rw [isJsonWsChar] at h
  simp only [Bool.or_eq_true, decide_eq_true_eq] at h
  rcases h with ((h | h) | h) | h <;> (subst h; decide)

theorem jsonWs_not_hex (c : Char) (h : isJsonWsChar c = true) :
    isHexDigit c = false := by
  rw [isJsonWsChar] at h
  simp only [Bool.or_eq_true, decide_eq_true_eq] at h
  rcases h with ((h | h) | h) | h <;> (subst h; decide)

theorem jsonWs_isWs (c : Char) (h : isJsonWsChar c = true) :
    isWs c = true := by
  rw [isJsonWsChar] at h
  simp only [Bool.or_eq_true, decide_eq_true_eq] at h
  rcases h with ((h | h) | h) | h <;> (subst h; decide)

theorem takeWhile_digit_append (x w : Str) (hw : w.all isJsonWsChar = true) :
    (x ++ w).takeWhile isDecDigit = x.takeWhile isDecDigit := by
  induction x with
  | nil =>
    simp only [List.nil_append, List.takeWhile_nil]
    cases w with
    | nil => rfl
    | cons d w2 =>
      have hd : isDecDigit d = false :=
        jsonWs_not_digit d ((List.all_eq_true.mp hw) d (by simp))
      simp [List.takeWhile_cons, hd]
  | cons a x2 ih =>
    rw [List.cons_append, List.takeWhile_cons, List.takeWhile_cons]
    cases ha : isDecDigit a with
    | false => rfl
    | true => rw [ih]

theorem hex4_append_some (r w : Str) (n : Nat) (r2 : Str)
    (h : hex4 r = some (n, r2)) : hex4 (r ++ w) = some (n, r2 ++ w) := by
  rcases r with _ | ⟨a, _ | ⟨b, _ | ⟨c, _ | ⟨d, r3⟩⟩⟩⟩
  · exact absurd h (by simp [hex4])
  · exact absurd h (by simp [hex4])
  · exact absurd h (by simp [hex4])
  · exact absurd h (by simp [hex4])
  · simp only [hex4] at h
    simp only [List.cons_append, hex4]
    by_cases hc :
        (isHexDigit a && isHexDigit b && isHexDigit c && isHexDigit d) = true
    · rw [if_pos hc] at h
      rw [if_pos hc]
      injection h with h'
      rw [Prod.mk.injEq] at h'
      rw [h'.1, h'.2]
    · rw [if_neg hc] at h
      exact absurd h (by simp)

theorem hex4_some_length (r : Str) (n : Nat) (r2 : Str)
    (h : hex4 r = some (n, r2)) : r2.length + 4 = r.length := by
  rcases r with _ | ⟨a, _ | ⟨b, _ | ⟨c, _ | ⟨d, r3⟩⟩⟩⟩
  · exact absurd h (by simp [hex4])
  · exact absurd h (by simp [hex4])
  · exact absurd h (by simp [hex4])
  · exact absurd h (by simp [hex4])
  · simp only [hex4] at h
    by_cases hc :
        (isHexDigit a && isHexDigit b && isHexDigit c && isHexDigit d) = true
    · rw [if_pos hc] at h
      injection h with h'
      rw [Prod.mk.injEq] at h'
      rw [← h'.2]
      simp only [List.length_cons]
    · rw [if_neg hc] at h
      exact absurd h (by simp)

theorem hex4_append_none (r w : Str) (hw : w.all isJsonWsChar = true)
    (h : hex4 r = none) : hex4 (r ++ w) = none := by
  have hws : ∀ d ∈ w, isHexDigit d = false := fun d hd =>
    jsonWs_not_hex d ((List.all_eq_true.mp hw) d hd)
  rcases r with _ | ⟨a, _ | ⟨b, _ | ⟨c, _ | ⟨d, r3⟩⟩⟩⟩
  · rcases w with _ | ⟨d1, _ | ⟨d2, _ | ⟨d3, _ | ⟨d4, w4⟩⟩⟩⟩
    · rfl
    · rfl
    · rfl
    · rfl
    · have h1 : isHexDigit d1 = false := hws d1 (by simp)
      simp [hex4, h1]
  · rcases w with _ | ⟨d1, _ | ⟨d2, _ | ⟨d3, w3⟩⟩⟩
    · simpa using h
    · rfl
    · rfl
    · have h1 : isHexDigit d1 = false := hws d1 (by simp)
      simp [hex4, h1]
  · rcases w with _ | ⟨d1, _ | ⟨d2, w2⟩⟩
    · simpa using h
    · rfl
    · have h1 : isHexDigit d1 = false := hws d1 (by simp)
      simp [hex4, h1]
  · rcases w with _ | ⟨d1, w1⟩
    · simpa using h
    · have h1 : isHexDigit d1 = false := hws d1 (by simp)
      simp [hex4, h1]
  · simp only [hex4] at h
    simp only [List.cons_append, hex4]
    by_cases hc :
        (isHexDigit a && isHexDigit b && isHexDigit c && isHexDigit d) = true
    · rw [if_pos hc] at h
      exact absurd h (by simp)
    · rw [if_neg hc]

theorem hex4_isSome_append (r w : Str) (hw : w.all isJsonWsChar = true) :
    (hex4 (r ++ w)).isSome = (hex4 r).isSome := by
  cases hx : hex4 r with
  | none =>
    rw [hex4_append_none r w hw hx]
  | some p =>
    rw [hex4_append_some r w p.1 p.2 (by rw [hx])]
    rfl

end RSSGen

namespace RSSGen

theorem stripCtlJson_append (a b : Str) :
    stripCtlJson (a ++ b) = stripCtlJson a ++ stripCtlJson b := by
  simp [stripCtlJson, List.filter_append]

theorem jsonWs_strip_sp (l : Str) (hl : l.all isJsonWsChar = true) :
    (stripCtlJson l).all (fun c => c = ' ') = true := by
  rw [List.all_eq_true]
  intro c hc
  rw [stripCtlJson, List.mem_filter] at hc
  have h1 : isJsonWsChar c = true := (List.all_eq_true.mp hl) c hc.1
  rw [isJsonWsChar] at h1
  simp only [Bool.or_eq_true, decide_eq_true_eq] at h1
  rcases h1 with ((h1 | h1) | h1) | h1 <;> subst h1
  · decide
  · exact absurd hc.2 (by decide)
  · exact absurd hc.2 (by decide)
  · exact absurd hc.2 (by decide)

set_option maxHeartbeats 1600000 in
theorem fixBadUnicode_cons_ne (c : Char) (r : Str) (hc : c ≠ '\\') :
    fixBadUnicode (c :: r) = c :: fixBadUnicode r := by
  conv_lhs => rw [fixBadUnicode.eq_def]
  split
  all_goals simp_all

set_option maxHeartbeats 1600000 in
theorem fixBadUnicode_bs_ne (d : Char) (r : Str) (hd : d ≠ 'u') :
    fixBadUnicode ('\\' :: d :: r) = '\\' :: fixBadUnicode (d :: r) := by
  conv_lhs => rw [fixBadUnicode.eq_def]
  split
  all_goals simp_all
  all_goals (rename_i heq; exact heq.1.symm)

theorem fixBadUnicode_bsu (r : Str) :
    fixBadUnicode ('\\' :: 'u' :: r) =
      if (hex4 r).isSome then '\\' :: 'u' :: fixBadUnicode r
      else '\\' :: '\\' :: 'u' :: fixBadUnicode r := rfl

theorem fixBadUnicode_spaces (sr : Str)
    (h : sr.all (fun c => c = ' ') = true) : fixBadUnicode sr = sr := by
  induction sr with
  | nil => rfl
  | cons c r ih =>
    rw [List.all_cons, Bool.and_eq_true] at h
    obtain ⟨h1, h2⟩ := h
    have hc : c = ' ' := of_decide_eq_true h1
    subst hc
    rw [fixBadUnicode_cons_ne ' ' r (by decide), ih h2]

theorem fixBadUnicode_sp_left (sl x : Str)
    (h : sl.all (fun c => c = ' ') = true) :
    fixBadUnicode (sl ++ x) = sl ++ fixBadUnicode x := by
  induction sl with
  | nil => rfl
  | cons c r ih =>
    rw [List.all_cons, Bool.and_eq_true] at h
    obtain ⟨h1, h2⟩ := h
    have hc : c = ' ' := of_decide_eq_true h1
    subst hc
    rw [List.cons_append, fixBadUnicode_cons_ne ' ' _ (by decide), ih h2,
      List.cons_append]

theorem fixBadUnicode_sp_right_bounded : ∀ (n : Nat) (y sr : Str),
    y.length ≤ n → sr.all (fun c => c = ' ') = true →
    fixBadUnicode (y ++ sr) = fixBadUnicode y ++ sr := by
  intro n
  induction n with
  | zero =>
    intro y sr hlen hsr
    have hy : y = [] := List.length_eq_zero.mp (Nat.le_zero.mp hlen)
    subst hy
    rw [List.nil_append, fixBadUnicode_spaces sr hsr]
    rfl
  | succ n ih =>
    intro y sr hlen hsr
    cases y with
    | nil =>
      rw [List.nil_append, fixBadUnicode_spaces sr hsr]
      rfl
    | cons c t =>
      by_cases hc : c = '\\'
      · subst hc
        cases t with
        | nil =>
          cases sr with
          | nil => rfl
          | cons d sr2 =>
            rw [List.all_cons, Bool.and_eq_true] at hsr
            obtain ⟨h1, h2⟩ := hsr
            have hd : d = ' ' := of_decide_eq_true h1
            subst hd
            rw [show (['\\'] ++ ' ' :: sr2 : Str) = '\\' :: ' ' :: sr2 from rfl]
            rw [fixBadUnicode_bs_ne ' ' sr2 (by decide)]
            rw [fixBadUnicode_spaces (' ' :: sr2) (by
              rw [List.all_cons, Bool.and_eq_true]
              exact ⟨by decide, h2⟩)]
            rfl
        | cons d t2 =>
          by_cases hd : d = 'u'
          · subst hd
            rw [show (('\\' :: 'u' :: t2) ++ sr : Str) =
              '\\' :: 'u' :: (t2 ++ sr) from rfl]
            rw [fixBadUnicode_bsu, fixBadUnicode_bsu]
            rw [hex4_isSome_append t2 sr (all_sp_jsonWs sr hsr)]
            have hlen2 : t2.length ≤ n := by
              simp only [List.length_cons] at hlen
              omega
            cases hs : (hex4 t2).isSome with
            | true =>
              rw [if_pos rfl, if_pos rfl]
              rw [ih t2 sr hlen2 hsr]
              rfl
            | false =>
              rw [if_neg (by simp), if_neg (by simp)]
              rw [ih t2 sr hlen2 hsr]
              rfl
          · rw [show (('\\' :: d :: t2) ++ sr : Str) =
              '\\' :: d :: (t2 ++ sr) from rfl]
            rw [fixBadUnicode_bs_ne d (t2 ++ sr) hd,
              fixBadUnicode_bs_ne d t2 hd]
            have hlen2 : (d :: t2).length ≤ n := by
              simp only [List.length_cons] at hlen ⊢
              omega
            rw [show d :: (t2 ++ sr) = (d :: t2) ++ sr from rfl,
              ih (d :: t2) sr hlen2 hsr]
            rfl
      · rw [List.cons_append, fixBadUnicode_cons_ne c _ hc,
          fixBadUnicode_cons_ne c _ hc]
        have hlen2 : t.length ≤ n := by
          simp only [List.length_cons] at hlen
          omega
        rw [ih t sr hlen2 hsr]
        rfl

theorem fixBadUnicode_sp_right (y sr : Str)
    (hsr : sr.all (fun c => c = ' ') = true) :
    fixBadUnicode (y ++ sr) = fixBadUnicode y ++ sr :=
  fixBadUnicode_sp_right_bounded y.length y sr (Nat.le_refl _) hsr

end RSSGen

namespace RSSGen

theorem jsonWs_ne (d : Char) (h : isJsonWsChar d = true) (c : Char)
    (hc : isJsonWsChar c = false) : d ≠ c := by
  intro he
  subst he
  rw [h] at hc
  exact Bool.noConfusion hc

theorem parseJNumExp_pad (w : Str) (hw : w.all isJsonWsChar = true)
    (lex : Str) (e : Char) (s : Str) (v : JVal) (rest : Str)
    (h : parseJNumExp lex e s = .ok (v, rest)) :
    parseJNumExp lex e (s ++ w) = .ok (v, rest ++ w) := by
  have key : ∀ (sgn s1 : Str),
      (if s1.takeWhile isDecDigit = []
       then (.error (str "Bad exponent in JSON") : Except Str (JVal × Str))
       else .ok (.jnum (lex ++ e :: sgn ++ s1.takeWhile isDecDigit),
         s1.drop (s1.takeWhile isDecDigit).length)) = .ok (v, rest) →
      (if (s1 ++ w).takeWhile isDecDigit = []
       then (.error (str "Bad exponent in JSON") : Except Str (JVal × Str))
       else .ok (.jnum (lex ++ e :: sgn ++ (s1 ++ w).takeWhile isDecDigit),
         (s1 ++ w).drop ((s1 ++ w).takeWhile isDecDigit).length)) =
        .ok (v, rest ++ w) := by
    intro sgn s1 hh
    rw [takeWhile_digit_append s1 w hw]
    by_cases hds : s1.takeWhile isDecDigit = []
    · rw [if_pos hds] at hh
      exact absurd hh (by simp)
    · rw [if_neg hds] at hh ⊢
      rw [drop_append_pad s1 w _ (List.takeWhile_prefix isDecDigit).length_le]
      injection hh with hh'
      rw [Prod.mk.injEq] at hh'
      rw [hh'.1, hh'.2]
  rcases s with _ | ⟨c, r⟩
  · exact absurd h (by simp [parseJNumExp])
  · by_cases hp : c = '+'
    · subst hp
      rw [show (('+' :: r) ++ w : Str) = '+' :: (r ++ w) from rfl]
      rw [show parseJNumExp lex e ('+' :: (r ++ w)) =
        (if (r ++ w).takeWhile isDecDigit = []
         then .error (str "Bad exponent in JSON")
         else .ok (.jnum (lex ++ e :: ['+'] ++ (r ++ w).takeWhile isDecDigit),
           (r ++ w).drop ((r ++ w).takeWhile isDecDigit).length)) from rfl]
      rw [show parseJNumExp lex e ('+' :: r) =
        (if r.takeWhile isDecDigit = []
         then .error (str "Bad exponent in JSON")
         else .ok (.jnum (lex ++ e :: ['+'] ++ r.takeWhile isDecDigit),
           r.drop (r.takeWhile isDecDigit).length)) from rfl] at h
      exact key ['+'] r h
    · by_cases hm : c = '-'
      · subst hm
        rw [show (('-' :: r) ++ w : Str) = '-' :: (r ++ w) from rfl]
        rw [show parseJNumExp lex e ('-' :: (r ++ w)) =
          (if (r ++ w).takeWhile isDecDigit = []
           then .error (str "Bad exponent in JSON")
           else .ok (.jnum (lex ++ e :: ['-'] ++ (r ++ w).takeWhile isDecDigit),
             (r ++ w).drop ((r ++ w).takeWhile isDecDigit).length)) from rfl]
        rw [show parseJNumExp lex e ('-' :: r) =
          (if r.takeWhile isDecDigit = []
           then .error (str "Bad exponent in JSON")
           else .ok (.jnum (lex ++ e :: ['-'] ++ r.takeWhile isDecDigit),
             r.drop (r.takeWhile isDecDigit).length)) from rfl] at h
        exact key ['-'] r h
      · unfold parseJNumExp at h
        split at h
        rename_i x sgn1 s11 heq1
        split at heq1
        · simp_all
        · simp_all
        · rw [Prod.mk.injEq] at heq1
          obtain ⟨hsg, hs1⟩ := heq1
          subst hsg
          subst hs1
          rw [show ((c :: r) ++ w : Str) = c :: (r ++ w) from rfl]
          unfold parseJNumExp
          split
          rename_i x2 sgn2 s12 heq2
          split at heq2
          · simp_all
          · simp_all
          · rw [Prod.mk.injEq] at heq2
            obtain ⟨hsg2, hs2⟩ := heq2
            subst hsg2
            subst hs2
            exact key [] (c :: r) h
end RSSGen

namespace RSSGen

theorem parseJNumTail_pad (w : Str) (hw : w.all isJsonWsChar = true)
    (lex s : Str) (v : JVal) (rest : Str)
    (h : parseJNumTail lex s = .ok (v, rest)) :
    parseJNumTail lex (s ++ w) = .ok (v, rest ++ w) := by
  rcases s with _ | ⟨c, r⟩
  · rw [show parseJNumTail lex [] = .ok (.jnum lex, []) from rfl] at h
    injection h with h'
    rw [Prod.mk.injEq] at h'
    obtain ⟨hv, hr⟩ := h'
    subst hv
    subst hr
    rw [List.nil_append]
    rcases w with _ | ⟨d, w2⟩
    · rfl
    · have hd : isJsonWsChar d = true := (List.all_eq_true.mp hw) d (by simp)
      have hde : d ≠ 'e' := jsonWs_ne d hd 'e' (by decide)
      have hdE : d ≠ 'E' := jsonWs_ne d hd 'E' (by decide)
      unfold parseJNumTail
      split
      · simp_all
      · simp_all
      · rfl
  · by_cases he : c = 'e'
    · subst he
      rw [show parseJNumTail lex ('e' :: r) = parseJNumExp lex 'e' r from rfl]
        at h
      rw [show (('e' :: r) ++ w : Str) = 'e' :: (r ++ w) from rfl]
      rw [show parseJNumTail lex ('e' :: (r ++ w)) =
        parseJNumExp lex 'e' (r ++ w) from rfl]
      exact parseJNumExp_pad w hw lex 'e' r v rest h
    · by_cases hE : c = 'E'
      · subst hE
        rw [show parseJNumTail lex ('E' :: r) = parseJNumExp lex 'E' r from rfl]
          at h
        rw [show (('E' :: r) ++ w : Str) = 'E' :: (r ++ w) from rfl]
        rw [show parseJNumTail lex ('E' :: (r ++ w)) =
          parseJNumExp lex 'E' (r ++ w) from rfl]
        exact parseJNumExp_pad w hw lex 'E' r v rest h
      · unfold parseJNumTail at h
        split at h
        · simp_all
        · simp_all
        · injection h with h'
          rw [Prod.mk.injEq] at h'
          obtain ⟨hv, hr⟩ := h'
          subst hv
          subst hr
          rw [show ((c :: r) ++ w : Str) = c :: (r ++ w) from rfl]
          unfold parseJNumTail
          split
          · simp_all
          · simp_all
          · rfl

theorem parseJNumFrac_pad (w : Str) (hw : w.all isJsonWsChar = true)
    (lex s : Str) (v : JVal) (rest : Str)
    (h : parseJNumFrac lex s = .ok (v, rest)) :
    parseJNumFrac lex (s ++ w) = .ok (v, rest ++ w) := by
  rcases s with _ | ⟨c, r⟩
  · rw [show parseJNumFrac lex [] = parseJNumTail lex [] from rfl] at h
    have hp := parseJNumTail_pad w hw lex [] v rest h
    rw [List.nil_append] at hp
    rw [List.nil_append]
    rcases w with _ | ⟨d, w2⟩
    · exact hp
    · have hd : isJsonWsChar d = true :=
        (List.all_eq_true.mp hw) d (by simp)
      have hdd : d ≠ '.' := jsonWs_ne d hd '.' (by decide)
      unfold parseJNumFrac
      split
      · simp_all
      · exact hp
  · by_cases hdot : c = '.'
    · subst hdot
      rw [show parseJNumFrac lex ('.' :: r) =
        (if r.takeWhile isDecDigit = []
         then .error (str "Bad number in JSON")
         else parseJNumTail (lex ++ '.' :: r.takeWhile isDecDigit)
           (r.drop (r.takeWhile isDecDigit).length)) from rfl] at h
      rw [show (('.' :: r) ++ w : Str) = '.' :: (r ++ w) from rfl]
      rw [show parseJNumFrac lex ('.' :: (r ++ w)) =
        (if (r ++ w).takeWhile isDecDigit = []
         then .error (str "Bad number in JSON")
         else parseJNumTail (lex ++ '.' :: (r ++ w).takeWhile isDecDigit)
           ((r ++ w).drop ((r ++ w).takeWhile isDecDigit).length)) from rfl]
      rw [takeWhile_digit_append r w hw]
      by_cases hds : r.takeWhile isDecDigit = []
      · rw [if_pos hds] at h
        exact absurd h (by simp)
      · rw [if_neg hds] at h ⊢
        rw [drop_append_pad r w _ (List.takeWhile_prefix isDecDigit).length_le]
        exact parseJNumTail_pad w hw _ _ v rest h
    · unfold parseJNumFrac at h
      split at h
      · simp_all
      · have hp := parseJNumTail_pad w hw lex (c :: r) v rest h
        rw [show ((c :: r) ++ w : Str) = c :: (r ++ w) from rfl] at hp ⊢
        unfold parseJNumFrac
        split
        · simp_all
        · exact hp

theorem parseJNum_pad (w : Str) (hw : w.all isJsonWsChar = true)
    (s : Str) (v : JVal) (rest : Str)
    (h : parseJNum s = .ok (v, rest)) :
    parseJNum (s ++ w) = .ok (v, rest ++ w) := by
  have key : ∀ (sign s1 : Str),
      (if s1.takeWhile isDecDigit = []
       then (.error (str "Unexpected token in JSON number") :
         Except Str (JVal × Str))
       else parseJNumFrac (sign ++ s1.takeWhile isDecDigit)
         (s1.drop (s1.takeWhile isDecDigit).length)) = .ok (v, rest) →
      (if (s1 ++ w).takeWhile isDecDigit = []
       then (.error (str "Unexpected token in JSON number") :
         Except Str (JVal × Str))
       else parseJNumFrac (sign ++ (s1 ++ w).takeWhile isDecDigit)
         ((s1 ++ w).drop ((s1 ++ w).takeWhile isDecDigit).length)) =
        .ok (v, rest ++ w) := by
    intro sign s1 hh
    rw [takeWhile_digit_append s1 w hw]
    by_cases hds : s1.takeWhile isDecDigit = []
    · rw [if_pos hds] at hh
      exact absurd hh (by simp)
    · rw [if_neg hds] at hh ⊢
      rw [drop_append_pad s1 w _ (List.takeWhile_prefix isDecDigit).length_le]
      exact parseJNumFrac_pad w hw _ _ v rest hh
  rcases s with _ | ⟨c, r⟩
  · exact absurd h (by simp [parseJNum])
  · by_cases hminus : c = '-'
    · subst hminus
      rcases r with _ | ⟨c2, r2⟩
      · exact absurd h (by simp [parseJNum])
      · by_cases h0 : c2 = '0'
        · subst h0
          rw [show parseJNum ('-' :: '0' :: r2) =
            parseJNumFrac (['-'] ++ ['0']) r2 from rfl] at h
          rw [show (('-' :: '0' :: r2) ++ w : Str) =
            '-' :: '0' :: (r2 ++ w) from rfl]
          rw [show parseJNum ('-' :: '0' :: (r2 ++ w)) =
            parseJNumFrac (['-'] ++ ['0']) (r2 ++ w) from rfl]
          exact parseJNumFrac_pad w hw _ _ v rest h
        · unfold parseJNum at h
          split at h
          rename_i x sign1 s11 heq1
          simp only [] at heq1
          rw [Prod.mk.injEq] at heq1
          obtain ⟨hsg, hs1⟩ := heq1
          subst hsg
          subst hs1
          split at h
          · simp_all
          · rw [show (('-' :: c2 :: r2) ++ w : Str) =
              '-' :: c2 :: (r2 ++ w) from rfl]
            unfold parseJNum
            split
            rename_i x2 sign2 s12 heq2
            simp only [] at heq2
            rw [Prod.mk.injEq] at heq2
            obtain ⟨hsg2, hs2⟩ := heq2
            subst hsg2
            subst hs2
            split
            · simp_all
            · exact key ['-'] (c2 :: r2) h
    · by_cases h0 : c = '0'
      · subst h0
        rw [show parseJNum ('0' :: r) =
          parseJNumFrac ([] ++ ['0']) r from rfl] at h
        rw [show (('0' :: r) ++ w : Str) = '0' :: (r ++ w) from rfl]
        rw [show parseJNum ('0' :: (r ++ w)) =
          parseJNumFrac ([] ++ ['0']) (r ++ w) from rfl]
        exact parseJNumFrac_pad w hw _ _ v rest h
      · unfold parseJNum at h
        split at h
        rename_i x sign1 s11 heq1
        split at heq1
        · simp_all
        · rw [Prod.mk.injEq] at heq1
          obtain ⟨hsg, hs1⟩ := heq1
          subst hsg
          subst hs1
          split at h
          · simp_all
          · rw [show ((c :: r) ++ w : Str) = c :: (r ++ w) from rfl]
            unfold parseJNum
            split
            rename_i x2 sign2 s12 heq2
            split at heq2
            · simp_all
            · rw [Prod.mk.injEq] at heq2
              obtain ⟨hsg2, hs2⟩ := heq2
              subst hsg2
              subst hs2
              split
              · simp_all
              · exact key [] (c :: r) h

end RSSGen

namespace RSSGen

theorem parseJStrChars_append (w : Str) : ∀ (f : Nat) (s cs r2 : Str),
    parseJStrChars f s = .ok (cs, r2) →
    ∀ f2, s.length < f2 → parseJStrChars f2 (s ++ w) = .ok (cs, r2 ++ w) := by
  intro f
  induction f with
  | zero =>
    intro s cs r2 h
    exact absurd h (by simp [parseJStrChars])
  | succ f ih =>
    intro s cs r2 h f2 hf2
    obtain ⟨f3, rfl⟩ : ∃ f3, f2 = f3 + 1 := ⟨f2 - 1, by omega⟩
    rcases s with _ | ⟨c, t⟩
    · exact absurd h (by simp [parseJStrChars])
    · by_cases hq : c = '"'
      · subst hq
        rw [show parseJStrChars (f + 1) ('"' :: t) = .ok ([], t) from rfl] at h
        injection h with h'
        rw [Prod.mk.injEq] at h'
        obtain ⟨hcs, hr⟩ := h'
        subst hcs
        subst hr
        rw [show (('"' :: t) ++ w : Str) = '"' :: (t ++ w) from rfl]
        rfl
      · by_cases hb : c = '\\'
        · subst hb
          rcases t with _ | ⟨e, t2⟩
          · exact absurd h (by
              rw [show parseJStrChars (f + 1) ['\\'] =
                (parseJStrChars f []).map (fun p => ('\\' :: p.1, p.2))
                from rfl]
              cases f with
              | zero => simp [parseJStrChars, Except.map]
              | succ f4 => simp [parseJStrChars, Except.map])
          · rw [show (('\\' :: e :: t2) ++ w : Str) =
              '\\' :: e :: (t2 ++ w) from rfl]
            unfold parseJStrChars at h ⊢
            simp only [] at h ⊢
            split at h
            · cases hin : parseJStrChars f t2 with
              | error e1 =>
                rw [hin] at h
                exact absurd h (by simp [Except.map])
              | ok p =>
                rw [hin] at h
                simp only [Except.map] at h
                injection h with h'
                rw [Prod.mk.injEq] at h'
                obtain ⟨hcs, hr⟩ := h'
                subst hcs
                subst hr
                rw [ih t2 p.1 p.2 (by rw [hin]) f3 (by
                  simp only [List.length_cons] at hf2
                  omega)]
                rfl
            · cases hin : parseJStrChars f t2 with
              | error e1 =>
                rw [hin] at h
                exact absurd h (by simp [Except.map])
              | ok p =>
                rw [hin] at h
                simp only [Except.map] at h
                injection h with h'
                rw [Prod.mk.injEq] at h'
                obtain ⟨hcs, hr⟩ := h'
                subst hcs
                subst hr
                rw [ih t2 p.1 p.2 (by rw [hin]) f3 (by
                  simp only [List.length_cons] at hf2
                  omega)]
                rfl
            · cases hin : parseJStrChars f t2 with
              | error e1 =>
                rw [hin] at h
                exact absurd h (by simp [Except.map])
              | ok p =>
                rw [hin] at h
                simp only [Except.map] at h
                injection h with h'
                rw [Prod.mk.injEq] at h'
                obtain ⟨hcs, hr⟩ := h'
                subst hcs
                subst hr
                rw [ih t2 p.1 p.2 (by rw [hin]) f3 (by
                  simp only [List.length_cons] at hf2
                  omega)]
                rfl
            · cases hin : parseJStrChars f t2 with
              | error e1 =>
                rw [hin] at h
                exact absurd h (by simp [Except.map])
              | ok p =>
                rw [hin] at h
                simp only [Except.map] at h
                injection h with h'
                rw [Prod.mk.injEq] at h'
                obtain ⟨hcs, hr⟩ := h'
                subst hcs
                subst hr
                rw [ih t2 p.1 p.2 (by rw [hin]) f3 (by
                  simp only [List.length_cons] at hf2
                  omega)]
                rfl
            · cases hin : parseJStrChars f t2 with
              | error e1 =>
                rw [hin] at h
                exact absurd h (by simp [Except.map])
              | ok p =>
                rw [hin] at h
                simp only [Except.map] at h
                injection h with h'
                rw [Prod.mk.injEq] at h'
                obtain ⟨hcs, hr⟩ := h'
                subst hcs
                subst hr
                rw [ih t2 p.1 p.2 (by rw [hin]) f3 (by
                  simp only [List.length_cons] at hf2
                  omega)]
                rfl
            · cases hin : parseJStrChars f t2 with
              | error e1 =>
                rw [hin] at h
                exact absurd h (by simp [Except.map])
              | ok p =>
                rw [hin] at h
                simp only [Except.map] at h
                injection h with h'
                rw [Prod.mk.injEq] at h'
                obtain ⟨hcs, hr⟩ := h'
                subst hcs
                subst hr
                rw [ih t2 p.1 p.2 (by rw [hin]) f3 (by
                  simp only [List.length_cons] at hf2
                  omega)]
                rfl
            · cases hin : parseJStrChars f t2 with
              | error e1 =>
                rw [hin] at h
                exact absurd h (by simp [Except.map])
              | ok p =>
                rw [hin] at h
                simp only [Except.map] at h
                injection h with h'
                rw [Prod.mk.injEq] at h'
                obtain ⟨hcs, hr⟩ := h'
                subst hcs
                subst hr
                rw [ih t2 p.1 p.2 (by rw [hin]) f3 (by
                  simp only [List.length_cons] at hf2
                  omega)]
                rfl
            · cases hin : parseJStrChars f t2 with
              | error e1 =>
                rw [hin] at h
                exact absurd h (by simp [Except.map])
              | ok p =>
                rw [hin] at h
                simp only [Except.map] at h
                injection h with h'
                rw [Prod.mk.injEq] at h'
                obtain ⟨hcs, hr⟩ := h'
                subst hcs
                subst hr
                rw [ih t2 p.1 p.2 (by rw [hin]) f3 (by
                  simp only [List.length_cons] at hf2
                  omega)]
                rfl
            · -- e = 'u'
              cases hh : hex4 t2 with
              | none =>
                rw [hh] at h
                exact absurd h (by simp)
              | some pr =>
                obtain ⟨n0, rr⟩ := pr
                rw [hh] at h
                simp only [] at h
                cases hin : parseJStrChars f rr with
                | error e1 =>
                  rw [hin] at h
                  exact absurd h (by simp [Except.map])
                | ok p =>
                  rw [hin] at h
                  simp only [Except.map] at h
                  injection h with h'
                  rw [Prod.mk.injEq] at h'
                  obtain ⟨hcs, hr⟩ := h'
                  subst hcs
                  subst hr
                  rw [hex4_append_some t2 w n0 rr hh]
                  simp only []
                  rw [ih rr p.1 p.2 (by rw [hin]) f3 (by
                    have hlen := hex4_some_length t2 n0 rr hh
                    simp only [List.length_cons] at hf2
                    omega)]
                  rfl
            · exact absurd h (by simp)
        · unfold parseJStrChars at h ⊢
          split at h
          · simp_all
          · simp_all
          · simp_all
          · rename_i c2 r heq
            injection heq with hc2 ht
            subst hc2
            subst ht
            by_cases hlt : c.toNat < 32
            · rw [if_pos hlt] at h
              exact absurd h (by simp)
            · rw [if_neg hlt] at h
              cases hin : parseJStrChars f t with
              | error e1 =>
                rw [hin] at h
                exact absurd h (by simp [Except.map])
              | ok p =>
                rw [hin] at h
                simp only [Except.map] at h
                injection h with h'
                rw [Prod.mk.injEq] at h'
                obtain ⟨hcs, hr⟩ := h'
                subst hcs
                subst hr
                rw [show ((c :: t) ++ w : Str) = c :: (t ++ w) from rfl]
                split
                · simp_all
                · simp_all
                · simp_all
                · rename_i c3 r3 heq3
                  injection heq3 with hc3 ht3
                  subst hc3
                  subst ht3
                  rw [if_neg hlt]
                  rw [ih t p.1 p.2 (by rw [hin]) f3 (by
                    simp only [List.length_cons] at hf2
                    omega)]
                  rfl

end RSSGen

namespace RSSGen

theorem bool_eq_false {b : Bool} (h : ¬ b = true) : b = false := by
  cases b
  · rfl
  · exact absurd rfl h

theorem parseJVal_nil_err (f : Nat) : ∀ v rest,
    parseJVal f [] = .ok (v, rest) → False := by
  intro v rest h
  cases f with
  | zero => exact absurd h (by simp [parseJVal])
  | succ f2 =>
    exact absurd h (by simp [parseJVal, skipJsonWs, str, List.isPrefixOf])

theorem parseJArrItems_nil_err (f : Nat) : ∀ acc v rest,
    parseJArrItems f [] acc = .ok (v, rest) → False := by
  intro acc v rest h
  cases f with
  | zero => exact absurd h (by simp [parseJArrItems])
  | succ f2 =>
    unfold parseJArrItems at h
    cases hpv : parseJVal f2 [] with
    | error e1 =>
      rw [hpv] at h
      simp at h
    | ok p => exact parseJVal_nil_err f2 p.1 p.2 (by rw [hpv])

end RSSGen

namespace RSSGen


theorem parseJObjItems_nil_err (f : Nat) : ∀ acc v rest,
    parseJObjItems f [] acc = .ok (v, rest) → False := by
  intro acc v rest h
  cases f with
  | zero => exact absurd h (by simp [parseJObjItems])
  | succ f2 => exact absurd h (by simp [parseJObjItems, skipJsonWs])

set_option maxHeartbeats 3200000 in
theorem parser_pad_all (w : Str) (hw : w.all isJsonWsChar = true) : ∀ f : Nat,
    (∀ s v rest, parseJVal f s = .ok (v, rest) →
      ∀ f2, f ≤ f2 → parseJVal f2 (s ++ w) = .ok (v, rest ++ w)) ∧
    (∀ s acc v rest, parseJArrItems f s acc = .ok (v, rest) →
      ∀ f2, f ≤ f2 → parseJArrItems f2 (s ++ w) acc = .ok (v, rest ++ w)) ∧
    (∀ s acc v rest, parseJObjItems f s acc = .ok (v, rest) →
      ∀ f2, f ≤ f2 → parseJObjItems f2 (s ++ w) acc = .ok (v, rest ++ w)) := by
  intro f
  induction f with
  | zero =>
    refine ⟨?_, ?_, ?_⟩
    · intro s v rest h
      exact absurd h (by simp [parseJVal])
    · intro s acc v rest h
      exact absurd h (by simp [parseJArrItems])
    · intro s acc v rest h
      exact absurd h (by simp [parseJObjItems])
  | succ f ih =>
    obtain ⟨ihV, ihA, ihO⟩ := ih
    refine ⟨?_, ?_, ?_⟩
    · intro s v rest h f2 hf2
      obtain ⟨f3, rfl⟩ : ∃ f3, f2 = f3 + 1 := ⟨f2 - 1, by omega⟩
      have hf3 : f ≤ f3 := by omega
      cases hsk : skipJsonWs s with
      | nil =>
        exfalso
        unfold parseJVal at h
        rw [hsk] at h
        simp [str, List.isPrefixOf] at h
      | cons c t =>
        have hsk2 : skipJsonWs (s ++ w) = c :: (t ++ w) :=
          skipJsonWs_cons_of s c t w hsk
        unfold parseJVal at h ⊢
        rw [hsk] at h
        rw [hsk2]
        simp only [] at h ⊢
        by_cases hnull : (str "null").isPrefixOf (c :: t) = true
        · rw [if_pos hnull] at h
          have hpad := isPrefixOf_append_pad (str "null") (c :: t) w hnull
          rw [show ((c :: t) ++ w : Str) = c :: (t ++ w) from rfl] at hpad
          rw [if_pos hpad]
          injection h with h'
          rw [Prod.mk.injEq] at h'
          obtain ⟨hv, hr⟩ := h'
          subst hv
          subst hr
          have hlen : 4 ≤ (c :: t).length := by
            have hx := (List.isPrefixOf_iff_prefix.mp hnull).length_le
            simpa [str] using hx
          have hdrop := drop_append_pad (c :: t) w 4 hlen
          rw [show ((c :: t) ++ w : Str) = c :: (t ++ w) from rfl] at hdrop
          rw [hdrop]
        · have hnull2 : ¬ (str "null").isPrefixOf (c :: (t ++ w)) = true := by
            have hx := isPrefixOf_nonws_pad (str "null") (by decide) (c :: t) w
              hw (bool_eq_false hnull)
            rw [show ((c :: t) ++ w : Str) = c :: (t ++ w) from rfl] at hx
            rw [hx]
            simp
          rw [if_neg hnull] at h
          rw [if_neg hnull2]
          by_cases htrue : (str "true").isPrefixOf (c :: t) = true
          · rw [if_pos htrue] at h
            have hpad := isPrefixOf_append_pad (str "true") (c :: t) w htrue
            rw [show ((c :: t) ++ w : Str) = c :: (t ++ w) from rfl] at hpad
            rw [if_pos hpad]
            injection h with h'
            rw [Prod.mk.injEq] at h'
            obtain ⟨hv, hr⟩ := h'
            subst hv
            subst hr
            have hlen : 4 ≤ (c :: t).length := by
              have hx := (List.isPrefixOf_iff_prefix.mp htrue).length_le
              simpa [str] using hx
            have hdrop := drop_append_pad (c :: t) w 4 hlen
            rw [show ((c :: t) ++ w : Str) = c :: (t ++ w) from rfl] at hdrop
            rw [hdrop]
          · have htrue2 : ¬ (str "true").isPrefixOf (c :: (t ++ w)) = true := by
              have hx := isPrefixOf_nonws_pad (str "true") (by decide) (c :: t)
                w hw (bool_eq_false htrue)
              rw [show ((c :: t) ++ w : Str) = c :: (t ++ w) from rfl] at hx
              rw [hx]
              simp
            rw [if_neg htrue] at h
            rw [if_neg htrue2]
            by_cases hfalse : (str "false").isPrefixOf (c :: t) = true
            · rw [if_pos hfalse] at h
              have hpad := isPrefixOf_append_pad (str "false") (c :: t) w hfalse
              rw [show ((c :: t) ++ w : Str) = c :: (t ++ w) from rfl] at hpad
              rw [if_pos hpad]
              injection h with h'
              rw [Prod.mk.injEq] at h'
              obtain ⟨hv, hr⟩ := h'
              subst hv
              subst hr
              have hlen : 5 ≤ (c :: t).length := by
                have hx := (List.isPrefixOf_iff_prefix.mp hfalse).length_le
                simpa [str] using hx
              have hdrop := drop_append_pad (c :: t) w 5 hlen
              rw [show ((c :: t) ++ w : Str) = c :: (t ++ w) from rfl] at hdrop
              rw [hdrop]
            · have hfalse2 :
                  ¬ (str "false").isPrefixOf (c :: (t ++ w)) = true := by
                have hx := isPrefixOf_nonws_pad (str "false") (by decide)
                  (c :: t) w hw (bool_eq_false hfalse)
                rw [show ((c :: t) ++ w : Str) = c :: (t ++ w) from rfl] at hx
                rw [hx]
                simp
              rw [if_neg hfalse] at h
              rw [if_neg hfalse2]
              by_cases hc1 : c = '\x22'
              · subst hc1
                simp only [] at h ⊢
                cases hps : parseJStrChars (t.length + 1) t with
                | error e1 =>
                  rw [hps] at h
                  simp at h
                | ok p =>
                  rw [hps] at h
                  simp only [] at h
                  injection h with h'
                  rw [Prod.mk.injEq] at h'
                  obtain ⟨hv, hr⟩ := h'
                  subst hv
                  subst hr
                  rw [parseJStrChars_append w (t.length + 1) t p.1 p.2
                    (by rw [hps]) ((t ++ w).length + 1) (by
                      simp [List.length_append]
                      omega)]
              · by_cases hc2 : c = '['
                · subst hc2
                  simp only [] at h ⊢
                  cases hsk3 : skipJsonWs t with
                  | nil =>
                    exfalso
                    rw [hsk3] at h
                    simp only [] at h
                    exact parseJArrItems_nil_err f [] v rest h
                  | cons c2 t2 =>
                    have hsk4 : skipJsonWs (t ++ w) = c2 :: (t2 ++ w) :=
                      skipJsonWs_cons_of t c2 t2 w hsk3
                    rw [hsk3] at h
                    rw [hsk4]
                    by_cases hbr : c2 = ']'
                    · subst hbr
                      simp only [] at h ⊢
                      injection h with h'
                      rw [Prod.mk.injEq] at h'
                      obtain ⟨hv, hr⟩ := h'
                      subst hv
                      subst hr
                      rfl
                    · split at h
                      all_goals try (exact absurd rfl hbr)
                      all_goals try (rename_i heq; injection heq with hx hy; exact absurd hx hbr)
                      all_goals try (rename_i heq; injection heq with hx hy; exact absurd hx.symm hbr)
                      split
                      all_goals try (exact absurd rfl hbr)
                      all_goals try (rename_i heq; injection heq with hx hy; exact absurd hx hbr)
                      all_goals try (rename_i heq; injection heq with hx hy; exact absurd hx.symm hbr)
                      exact ihA (c2 :: t2) [] v rest h f3 hf3
                · by_cases hc3 : c = '\x7b'
                  · subst hc3
                    simp only [] at h ⊢
                    cases hsk3 : skipJsonWs t with
                    | nil =>
                      exfalso
                      rw [hsk3] at h
                      simp only [] at h
                      exact parseJObjItems_nil_err f [] v rest h
                    | cons c2 t2 =>
                      have hsk4 : skipJsonWs (t ++ w) = c2 :: (t2 ++ w) :=
                        skipJsonWs_cons_of t c2 t2 w hsk3
                      rw [hsk3] at h
                      rw [hsk4]
                      by_cases hbr : c2 = '\x7d'
                      · subst hbr
                        simp only [] at h ⊢
                        injection h with h'
                        rw [Prod.mk.injEq] at h'
                        obtain ⟨hv, hr⟩ := h'
                        subst hv
                        subst hr
                        rfl
                      · split at h
                        all_goals try (exact absurd rfl hbr)
                        all_goals try (rename_i heq; injection heq with hx hy; exact absurd hx hbr)
                        all_goals try (rename_i heq; injection heq with hx hy; exact absurd hx.symm hbr)
                        split
                        all_goals try (exact absurd rfl hbr)
                        all_goals try (rename_i heq; injection heq with hx hy; exact absurd hx hbr)
                        all_goals try (rename_i heq; injection heq with hx hy; exact absurd hx.symm hbr)
                        exact ihO (c2 :: t2) [] v rest h f3 hf3
                  · split at h
                    all_goals try (exact absurd rfl hc1)
                    all_goals try (exact absurd rfl hc2)
                    all_goals try (exact absurd rfl hc3)
                    all_goals try (rename_i heq; injection heq with hx hy; exact absurd hx hc1)
                    all_goals try (rename_i heq; injection heq with hx hy; exact absurd hx hc2)
                    all_goals try (rename_i heq; injection heq with hx hy; exact absurd hx hc3)
                    all_goals try (rename_i heq; exact List.noConfusion heq)
                    rename_i heq4
                    injection heq4 with hc4 ht4
                    subst hc4
                    subst ht4
                    by_cases hcond : (c = '-' || isDecDigit c) = true
                    · rw [if_pos hcond] at h
                      rw [if_pos hcond]
                      have hp := parseJNum_pad w hw (c :: t) v rest h
                      rw [show ((c :: t) ++ w : Str) = c :: (t ++ w)
                        from rfl] at hp
                      exact hp
                    · rw [if_neg hcond] at h
                      simp at h
    · intro s acc v rest h f2 hf2
      obtain ⟨f3, rfl⟩ : ∃ f3, f2 = f3 + 1 := ⟨f2 - 1, by omega⟩
      have hf3 : f ≤ f3 := by omega
      unfold parseJArrItems at h ⊢
      cases hpv : parseJVal f s with
      | error e1 =>
        rw [hpv] at h
        simp at h
      | ok p =>
        obtain ⟨v1, r⟩ := p
        rw [hpv] at h
        simp only [] at h
        rw [ihV s v1 r (by rw [hpv]) f3 hf3]
        simp only []
        cases hsk : skipJsonWs r with
        | nil =>
          rw [hsk] at h
          simp at h
        | cons c2 t2 =>
          have hsk2 : skipJsonWs (r ++ w) = c2 :: (t2 ++ w) :=
            skipJsonWs_cons_of r c2 t2 w hsk
          rw [hsk] at h
          rw [hsk2]
          by_cases hcomma : c2 = ','
          · subst hcomma
            simp only [] at h ⊢
            exact ihA t2 (acc ++ [v1]) v rest h f3 hf3
          · by_cases hbr : c2 = ']'
            · subst hbr
              simp only [] at h ⊢
              injection h with h'
              rw [Prod.mk.injEq] at h'
              obtain ⟨hv, hr⟩ := h'
              subst hv
              subst hr
              rfl
            · split at h
              all_goals try (exact absurd rfl hcomma)
              all_goals try (rename_i heq; injection heq with hx hy; exact absurd hx hcomma)
              all_goals try (rename_i heq; injection heq with hx hy; exact absurd hx.symm hcomma)
              all_goals try (exact absurd rfl hbr)
              all_goals try (rename_i heq; injection heq with hx hy; exact absurd hx hbr)
              all_goals try (rename_i heq; injection heq with hx hy; exact absurd hx.symm hbr)
              simp at h
    · intro s acc v rest h f2 hf2
      obtain ⟨f3, rfl⟩ : ∃ f3, f2 = f3 + 1 := ⟨f2 - 1, by omega⟩
      have hf3 : f ≤ f3 := by omega
      unfold parseJObjItems at h ⊢
      cases hsk : skipJsonWs s with
      | nil =>
        rw [hsk] at h
        simp at h
      | cons c2 t2 =>
        have hsk2 : skipJsonWs (s ++ w) = c2 :: (t2 ++ w) :=
          skipJsonWs_cons_of s c2 t2 w hsk
        rw [hsk] at h
        rw [hsk2]
        by_cases hq : c2 = '\x22'
        · subst hq
          simp only [] at h ⊢
          cases hps : parseJStrChars (t2.length + 1) t2 with
          | error e1 =>
            rw [hps] at h
            simp at h
          | ok p =>
            obtain ⟨k, r2⟩ := p
            rw [hps] at h
            simp only [] at h
            rw [parseJStrChars_append w (t2.length + 1) t2 k r2 (by rw [hps])
              ((t2 ++ w).length + 1) (by
                simp [List.length_append]
                omega)]
            simp only []
            cases hsk3 : skipJsonWs r2 with
            | nil =>
              rw [hsk3] at h
              simp at h
            | cons c3 t3 =>
              have hsk4 : skipJsonWs (r2 ++ w) = c3 :: (t3 ++ w) :=
                skipJsonWs_cons_of r2 c3 t3 w hsk3
              rw [hsk3] at h
              rw [hsk4]
              by_cases hcolon : c3 = ':'
              · subst hcolon
                simp only [] at h ⊢
                cases hpv : parseJVal f t3 with
                | error e1 =>
                  rw [hpv] at h
                  simp at h
                | ok pv =>
                  obtain ⟨v1, r4⟩ := pv
                  rw [hpv] at h
                  simp only [] at h
                  rw [ihV t3 v1 r4 (by rw [hpv]) f3 hf3]
                  simp only []
                  cases hsk5 : skipJsonWs r4 with
                  | nil =>
                    rw [hsk5] at h
                    simp at h
                  | cons c4 t4 =>
                    have hsk6 : skipJsonWs (r4 ++ w) = c4 :: (t4 ++ w) :=
                      skipJsonWs_cons_of r4 c4 t4 w hsk5
                    rw [hsk5] at h
                    rw [hsk6]
                    by_cases hcm : c4 = ','
                    · subst hcm
                      simp only [] at h ⊢
                      exact ihO t4 (acc ++ [(k, v1)]) v rest h f3 hf3
                    · by_cases hbc : c4 = '\x7d'
                      · subst hbc
                        simp only [] at h ⊢
                        injection h with h'
                        rw [Prod.mk.injEq] at h'
                        obtain ⟨hv, hr⟩ := h'
                        subst hv
                        subst hr
                        rfl
                      · split at h
                        all_goals try (exact absurd rfl hcm)
                        all_goals try (rename_i heq; injection heq with hx hy; exact absurd hx hcm)
                        all_goals try (rename_i heq; injection heq with hx hy; exact absurd hx.symm hcm)
                        all_goals try (exact absurd rfl hbc)
                        all_goals try (rename_i heq; injection heq with hx hy; exact absurd hx hbc)
                        all_goals try (rename_i heq; injection heq with hx hy; exact absurd hx.symm hbc)
                        simp at h
              · split at h
                all_goals try (exact absurd rfl hcolon)
                all_goals try (rename_i heq; injection heq with hx hy; exact absurd hx hcolon)
                all_goals try (rename_i heq; injection heq with hx hy; exact absurd hx.symm hcolon)
                simp at h
        · split at h
          all_goals try (exact absurd rfl hq)
          all_goals try (rename_i heq; injection heq with hx hy; exact absurd hx hq)
          all_goals try (rename_i heq; injection heq with hx hy; exact absurd hx.symm hq)
          simp at h

end RSSGen

namespace RSSGen

theorem parseJVal_ws_left (f : Nat) (l s : Str)
    (hl : l.all isJsonWsChar = true) :
    parseJVal f (l ++ s) = parseJVal f s := by
  cases f with
  | zero => rfl
  | succ f =>
    rw [parseJVal, parseJVal, skipJsonWs_ws_append l s hl]

theorem jsonParse_pad (l z r : Str) (hl : l.all isJsonWsChar = true)
    (hr : r.all isJsonWsChar = true) (v : JVal)
    (h : jsonParse z = .ok v) : jsonParse (l ++ z ++ r) = .ok v := by
  unfold jsonParse at h
  cases hp : parseJVal (z.length + 2) z with
  | error e =>
    rw [hp] at h
    exact absurd h (by simp)
  | ok p =>
    obtain ⟨v0, rest⟩ := p
    rw [hp] at h
    simp only [] at h
    by_cases hsk : skipJsonWs rest = []
    · rw [if_pos hsk] at h
      injection h with hv
      subst hv
      have hfuel : z.length + 2 ≤ (l ++ (z ++ r)).length + 2 := by
        simp [List.length_append]
        omega
      have hpad := (parser_pad_all r hr (z.length + 2)).1 z v0 rest hp
        ((l ++ (z ++ r)).length + 2) hfuel
      unfold jsonParse
      rw [show (l ++ z ++ r : Str) = l ++ (z ++ r) from List.append_assoc l z r]
      rw [parseJVal_ws_left ((l ++ (z ++ r)).length + 2) l (z ++ r) hl]
      rw [hpad]
      simp only []
      rw [if_pos (skipJsonWs_nil_append rest r hsk hr)]
    · rw [if_neg hsk] at h
      exact absurd h (by simp)

end RSSGen

namespace RSSGen

theorem bt_prefix_false_cons (q : Str) (w0 : Char) (w1 : Str)
    (h0 : w0 ≠ '`') : ('`' :: q : Str).isPrefixOf (w0 :: w1) = false := by
  simp [List.isPrefixOf, Ne.symm h0]

theorem bt_pat_prefix_false (q w : Str) (hw : ∀ c ∈ w, c ≠ '`') :
    ('`' :: q : Str).isPrefixOf w = false := by
  cases w with
  | nil => rfl
  | cons w0 w1 => exact bt_prefix_false_cons q w0 w1 (hw w0 (by simp))

theorem firstIdx_fence_after_nbt (wt : Str) (h : ∀ c ∈ wt, c ≠ '`') :
    firstIdx (str "```") (wt ++ str "```") = some wt.length := by
  induction wt with
  | nil => decide
  | cons c rest ih =>
    have hnp : (str "```").isPrefixOf (c :: (rest ++ str "```")) = false := by
      show ('`' :: ['`', '`'] : Str).isPrefixOf (c :: (rest ++ str "```")) = false
      exact bt_prefix_false_cons ['`', '`'] c _ (h c (by simp))
    rw [List.cons_append, firstIdx, hnp]
    simp only [Bool.false_eq_true, if_false]
    rw [ih (fun d hd => h d (by simp [hd]))]
    simp

theorem firstIdx_fence_ws_tail2 (p wt : Str)
    (hp : containsSubstr (str "```") p = false)
    (hwt : ∀ c ∈ wt, c ≠ '`') (hne : wt ≠ []) :
    firstIdx (str "```") (p ++ wt ++ str "```") = some (p.length + wt.length) := by
  have hstr : str "```" = ['`', '`', '`'] := rfl
  obtain ⟨w0, wt2, rfl⟩ : ∃ w0 wt2, wt = w0 :: wt2 := by
    cases wt with
    | nil => exact absurd rfl hne
    | cons a b => exact ⟨a, b, rfl⟩
  have hw0 : w0 ≠ '`' := hwt w0 (by simp)
  induction p with
  | nil =>
    rw [List.nil_append, firstIdx_fence_after_nbt (w0 :: wt2) hwt]
    simp
  | cons c rest ih =>
    rw [containsSubstr] at hp
    simp only [Bool.or_eq_false_iff] at hp
    have hnp : (str "```").isPrefixOf
        (c :: (rest ++ (w0 :: wt2) ++ str "```")) = false := by
      rw [hstr]
      cases rest with
      | nil =>
        by_cases hc : c = '`'
        · subst hc
          simp [List.isPrefixOf, Ne.symm hw0]
        · simp [List.isPrefixOf, Ne.symm hc]
      | cons d rest2 =>
        cases rest2 with
        | nil =>
          by_cases hc : c = '`'
          · subst hc
            by_cases hd : d = '`'
            · subst hd
              simp [List.isPrefixOf, Ne.symm hw0]
            · simp [List.isPrefixOf, Ne.symm hd]
          · simp [List.isPrefixOf, Ne.symm hc]
        | cons e rest3 =>
          by_cases hc : c = '`'
          · by_cases hd : d = '`'
            · by_cases he : e = '`'
              · exfalso
                subst hc; subst hd; subst he
                have hp3 : (str "```").isPrefixOf
                    ('`' :: '`' :: '`' :: rest3) = true := by
                  rw [hstr]; simp [List.isPrefixOf]
                rw [hp3] at hp
                exact absurd hp.1 (by simp)
              · subst hc; subst hd
                simp [List.isPrefixOf, Ne.symm he]
            · subst hc
              simp [List.isPrefixOf, Ne.symm hd]
          · simp [List.isPrefixOf, Ne.symm hc]
    have hgoal : (c :: rest) ++ (w0 :: wt2) ++ str "```" =
        c :: (rest ++ (w0 :: wt2) ++ str "```") := by simp
    rw [hgoal, firstIdx, hnp]
    simp only [Bool.false_eq_true, if_false]
    rw [ih hp.2]
    simp only [Option.map_some', Option.some.injEq, List.length_cons]
    omega

end RSSGen

namespace RSSGen

theorem dropTrailingWsStr_ws_pad (p wt : Str) (hwt : wt.all isWs = true)
    (hR : p.reverse.dropWhile isWs = p.reverse) :
    dropTrailingWsStr (p ++ wt) = p := by
  rw [dropTrailingWsStr, List.reverse_append, List.dropWhile_append]
  have hnil : wt.reverse.dropWhile isWs = [] :=
    List.dropWhile_eq_nil_iff.mpr
      (fun c hc => (List.all_eq_true.mp hwt) c (List.mem_reverse.mp hc))
  rw [hnil]
  simp [hR]

theorem dropWhile_ws_pad_left (l p x : Str) (hl : l.all isWs = true)
    (hne : p ≠ []) (hfix : p.dropWhile isWs = p) :
    (l ++ (p ++ x)).dropWhile isWs = p ++ x := by
  rw [List.dropWhile_append]
  have hnil : l.dropWhile isWs = [] :=
    List.dropWhile_eq_nil_iff.mpr
      (fun c hc => (List.all_eq_true.mp hl) c hc)
  rw [hnil]
  simp [dropWhile_append_self p x hne hfix]

theorem no_bt_no_fence (s : Str) (h : ∀ c ∈ s, c ≠ '`') :
    containsSubstr (str "```") s = false := by
  induction s with
  | nil => rfl
  | cons c rest ih =>
    rw [containsSubstr]
    have hnp : (str "```").isPrefixOf (c :: rest) = false := by
      show ('`' :: ['`', '`'] : Str).isPrefixOf (c :: rest) = false
      exact bt_prefix_false_cons ['`', '`'] c rest (h c (by simp))
    rw [hnp, ih (fun d hd => h d (by simp [hd]))]
    rfl

theorem bt_prefix_false_pad (t w : Str)
    (ht : (str "```").isPrefixOf t = false)
    (hw : ∀ c ∈ w, c ≠ '`') :
    (str "```").isPrefixOf (t ++ w) = false := by
  have h3 : str "```" = ['`', '`', '`'] := rfl
  rcases t with _ | ⟨a, _ | ⟨b, _ | ⟨c, t3⟩⟩⟩
  · rw [List.nil_append, h3]
    exact bt_pat_prefix_false ['`', '`'] w hw
  · by_cases ha : a = '`'
    · subst ha
      rw [h3]
      show (['`', '`', '`'] : Str).isPrefixOf ('`' :: w) = false
      simp only [List.isPrefixOf]
      rw [bt_pat_prefix_false ['`'] w hw]
      simp
    · rw [h3]
      show (['`', '`', '`'] : Str).isPrefixOf (a :: w) = false
      simp [List.isPrefixOf, Ne.symm ha]
  · by_cases ha : a = '`'
    · subst ha
      by_cases hb : b = '`'
      · subst hb
        rw [h3]
        show (['`', '`', '`'] : Str).isPrefixOf ('`' :: '`' :: w) = false
        simp only [List.isPrefixOf]
        rw [bt_pat_prefix_false [] w hw]
        simp
      · rw [h3]
        show (['`', '`', '`'] : Str).isPrefixOf ('`' :: b :: w) = false
        simp [List.isPrefixOf, Ne.symm hb]
    · rw [h3]
      show (['`', '`', '`'] : Str).isPrefixOf (a :: b :: w) = false
      simp [List.isPrefixOf, Ne.symm ha]
  · by_cases ha : a = '`'
    · by_cases hb : b = '`'
      · by_cases hc : c = '`'
        · exfalso
          subst ha; subst hb; subst hc
          have hp3 : (str "```").isPrefixOf ('`' :: '`' :: '`' :: t3) = true := by
            rw [h3]; simp [List.isPrefixOf]
          rw [hp3] at ht
          exact absurd ht (by simp)
        · subst ha; subst hb
          rw [h3]
          show (['`', '`', '`'] : Str).isPrefixOf
            ('`' :: '`' :: c :: (t3 ++ w)) = false
          simp [List.isPrefixOf, Ne.symm hc]
      · subst ha
        rw [h3]
        show (['`', '`', '`'] : Str).isPrefixOf
          ('`' :: b :: c :: (t3 ++ w)) = false
        simp [List.isPrefixOf, Ne.symm hb]
    · rw [h3]
      show (['`', '`', '`'] : Str).isPrefixOf
        (a :: b :: c :: (t3 ++ w)) = false
      simp [List.isPrefixOf, Ne.symm ha]

theorem fence_free_append_nbt (p w : Str)
    (hp : containsSubstr (str "```") p = false)
    (hw : ∀ c ∈ w, c ≠ '`') :
    containsSubstr (str "```") (p ++ w) = false := by
  induction p with
  | nil =>
    rw [List.nil_append]
    exact no_bt_no_fence w hw
  | cons c rest ih =>
    rw [containsSubstr] at hp
    simp only [Bool.or_eq_false_iff] at hp
    rw [List.cons_append, containsSubstr]
    rw [show (c :: (rest ++ w) : Str) = ((c :: rest) ++ w) from rfl]
    rw [bt_prefix_false_pad (c :: rest) w hp.1 hw, ih hp.2]
    rfl

theorem fence_free_prepend_nbt (w p : Str)
    (hw : ∀ c ∈ w, c ≠ '`')
    (hp : containsSubstr (str "```") p = false) :
    containsSubstr (str "```") (w ++ p) = false := by
  induction w with
  | nil => simpa using hp
  | cons c rest ih =>
    rw [List.cons_append, containsSubstr]
    have hnp : (str "```").isPrefixOf (c :: (rest ++ p)) = false := by
      show ('`' :: ['`', '`'] : Str).isPrefixOf (c :: (rest ++ p)) = false
      exact bt_prefix_false_cons ['`', '`'] c _ (hw c (by simp))
    rw [hnp, ih (fun d hd => hw d (by simp [hd]))]
    rfl

end RSSGen

namespace RSSGen

theorem fenceFirstMatch_wrap_pad (l p r : Str)
    (hl : l.all isJsonWsChar = true) (hr : r.all isJsonWsChar = true)
    (hnf : containsSubstr (str "```") p = false)
    (htrim : jsTrim p = p) (hne : p ≠ []) :
    fenceFirstMatch (fenceWrap (l ++ p ++ r)) = some p := by
  obtain ⟨hL, hR⟩ := jsTrim_eq_self_parts p htrim
  have hlws : l.all isWs = true := by
    rw [List.all_eq_true] at hl ⊢
    exact fun c hc => jsonWs_isWs c (hl c hc)
  have hrws : r.all isWs = true := by
    rw [List.all_eq_true] at hr ⊢
    exact fun c hc => jsonWs_isWs c (hr c hc)
  have hwtws : (r ++ ['\n']).all isWs = true := by
    rw [List.all_append, hrws]
    decide
  have hwtnbt : ∀ c ∈ r ++ ['\n'], c ≠ '`' := by
    intro c hc
    rcases List.mem_append.mp hc with hc1 | hc2
    · exact jsonWs_ne c ((List.all_eq_true.mp hr) c hc1) '`' (by decide)
    · have : c = '\n' := by simpa using hc2
      subst this
      decide
  have hlit : str "```json\n" = ['`', '`', '`', 'j', 's', 'o', 'n', '\n'] := rfl
  have hwrap : fenceWrap (l ++ p ++ r) =
      '`' :: '`' :: '`' :: 'j' :: 's' :: 'o' :: 'n' :: '\n' ::
        ((l ++ p ++ r) ++ str "\n```") := by
    rw [fenceWrap, hlit]
    simp
  have hshape : ((l ++ p ++ r) ++ str "\n```") =
      l ++ ((p ++ ((r ++ ['\n']) ++ str "```"))) := by
    rw [show (str "\n```" : Str) = '\n' :: str "```" from rfl]
    simp
  have hT : p ++ ((r ++ ['\n']) ++ str "```") =
      (p ++ (r ++ ['\n'])) ++ str "```" := (List.append_assoc _ _ _).symm
  have hmatch : fenceMatchAt (fenceWrap (l ++ p ++ r)) =
      some (p, ((p ++ (r ++ ['\n'])) ++ str "```").drop
        (p.length + (r ++ ['\n']).length + 3)) := by
    rw [fenceMatchAt]
    have hdrop3 : (fenceWrap (l ++ p ++ r)).drop 3 =
        'j' :: 's' :: 'o' :: 'n' :: '\n' :: ((l ++ p ++ r) ++ str "\n```") := by
      rw [hwrap]
      rfl
    have hskip : skipJsonTag ('j' :: 's' :: 'o' :: 'n' :: '\n' ::
        ((l ++ p ++ r) ++ str "\n```")) =
        '\n' :: ((l ++ p ++ r) ++ str "\n```") := by
      rw [skipJsonTag]
      have hpre4 : (str "json").isPrefixOf ('j' :: 's' :: 'o' :: 'n' :: '\n' ::
          ((l ++ p ++ r) ++ str "\n```")) = true := by
        rw [show (str "json" : Str) = ['j', 's', 'o', 'n'] from rfl]
        simp [List.isPrefixOf]
      rw [hpre4]
      rfl
    rw [hdrop3, hskip]
    have hdw : ('\n' :: ((l ++ p ++ r) ++ str "\n```")).dropWhile isWs =
        (p ++ (r ++ ['\n'])) ++ str "```" := by
      rw [List.dropWhile_cons]
      rw [show isWs '\n' = true from by decide]
      simp only [if_true]
      rw [hshape]
      rw [dropWhile_ws_pad_left l p ((r ++ ['\n']) ++ str "```") hlws hne hL]
      exact hT
    rw [hdw]
    rw [firstIdx_fence_ws_tail2 p (r ++ ['\n']) hnf hwtnbt (by simp)]
    simp only []
    have htake : ((p ++ (r ++ ['\n'])) ++ str "```").take
        (p.length + (r ++ ['\n']).length) = p ++ (r ++ ['\n']) :=
      List.take_left' (by simp)
    rw [htake]
    rw [dropTrailingWsStr_ws_pad p (r ++ ['\n']) hwtws hR]
  rw [hwrap, fenceFirstMatch]
  have hpre : (str "```").isPrefixOf
      ('`' :: '`' :: '`' :: 'j' :: 's' :: 'o' :: 'n' :: '\n' ::
        ((l ++ p ++ r) ++ str "\n```")) = true := by
    rw [show (str "```" : Str) = ['`', '`', '`'] from rfl]
    simp [List.isPrefixOf]
  rw [hpre]
  simp only [if_true]
  rw [← hwrap, hmatch]

end RSSGen

namespace RSSGen

/-- C4 counterexample: fence stripping is not transparent for a well-formed
payload that itself contains backtick fences inside a JSON string.  For
`p = {"title":"A``` 2 ```B","items":[]}` (valid JSON), decoding the bare
payload extracts the text between the two interior fences and yields the
number `2`, while decoding the ```json-wrapped payload falls back to the
brace-to-brace retry and yields the full object: the two structured results
differ. -/
theorem C4_fence_strip_counterexample :
    decodeMain (str "\x7b\"title\":\"A``` 2 ```B\",\"items\":[]\x7d") =
      .ok (.jnum ['2']) ∧
    decodeMain (fenceWrap (str "\x7b\"title\":\"A``` 2 ```B\",\"items\":[]\x7d")) =
      .ok (.jobj [(str "title", .jstr (str "A``` 2 ```B")),
                  (str "items", .jarr [])]) ∧
    decodeMain (fenceWrap (str "\x7b\"title\":\"A``` 2 ```B\",\"items\":[]\x7d")) ≠
      decodeMain (str "\x7b\"title\":\"A``` 2 ```B\",\"items\":[]\x7d") := by
  refine ⟨rfl, rfl, ?_⟩
  intro h
  rw [show decodeMain (fenceWrap (str "\x7b\"title\":\"A``` 2 ```B\",\"items\":[]\x7d")) =
      .ok (.jobj [(str "title", .jstr (str "A``` 2 ```B")),
                  (str "items", .jarr [])]) from rfl,
    show decodeMain (str "\x7b\"title\":\"A``` 2 ```B\",\"items\":[]\x7d") =
      .ok (.jnum ['2']) from rfl] at h
  injection h with h2
  exact JVal.noConfusion h2

/-- C4 as amended: for a well-formed payload that is non-empty, contains no
triple-backtick sequence of its own, and is surrounded by arbitrary JSON
whitespace padding (spaces, tabs, newlines, carriage returns) on either
side, decoding the padded payload wrapped in a ```json fence yields exactly
the same result as decoding the unwrapped padded payload, in the `main.js`
decoder and in the `part_007` decoder alike (their fence handling is
identical); transparency can only break when the payload itself contains
backtick fences.  The trimmed core `p` carries the well-formedness
hypothesis; the padding `l`/`r` is absorbed by the fence regex on the
wrapped side and by `JSON.parse`'s whitespace skipping (after the
control-character strip turns its newlines into nothing and leaves its
spaces) on the bare side. -/
theorem C4_fence_strip_transparent (l p r : Str) (v : JVal)
    (hl : l.all isJsonWsChar = true) (hr : r.all isJsonWsChar = true)
    (hnf : containsSubstr (str "```") p = false)
    (htrim : jsTrim p = p) (hne : p ≠ [])
    (hok : jsonParse (fixBadUnicode (stripCtlJson p)) = .ok v) :
    decodeMain (fenceWrap (l ++ p ++ r)) = decodeMain (l ++ p ++ r) ∧
    decodeMain (l ++ p ++ r) = .ok v ∧
    decodeP7 (fenceWrap (l ++ p ++ r)) = decodeP7 (l ++ p ++ r) ∧
    decodeP7 (l ++ p ++ r) = .ok v := by
  have hlnbt : ∀ c ∈ l, c ≠ '`' := fun c hc =>
    jsonWs_ne c ((List.all_eq_true.mp hl) c hc) '`' (by decide)
  have hrnbt : ∀ c ∈ r, c ≠ '`' := fun c hc =>
    jsonWs_ne c ((List.all_eq_true.mp hr) c hc) '`' (by decide)
  have hnf2 : containsSubstr (str "```") (l ++ p ++ r) = false := by
    rw [List.append_assoc]
    exact fence_free_prepend_nbt l (p ++ r) hlnbt
      (fence_free_append_nbt p r hnf hrnbt)
  have hsl := jsonWs_strip_sp l hl
  have hsr := jsonWs_strip_sp r hr
  have hcc1 : cleanContentMain (l ++ p ++ r) =
      stripCtlJson l ++ fixBadUnicode (stripCtlJson p) ++ stripCtlJson r := by
    rw [cleanContentMain, fenceFirstMatch_none_of_no_fence _ hnf2]
    simp only []
    rw [stripCtlJson_append, stripCtlJson_append,
      fixBadUnicode_sp_right (stripCtlJson l ++ stripCtlJson p)
        (stripCtlJson r) hsr,
      fixBadUnicode_sp_left (stripCtlJson l) (stripCtlJson p) hsl]
  have hparse1 : jsonParse (cleanContentMain (l ++ p ++ r)) = .ok v := by
    rw [hcc1]
    exact jsonParse_pad (stripCtlJson l) (fixBadUnicode (stripCtlJson p))
      (stripCtlJson r) (all_sp_jsonWs _ hsl) (all_sp_jsonWs _ hsr) v hok
  have hcc2 : cleanContentMain (fenceWrap (l ++ p ++ r)) =
      fixBadUnicode (stripCtlJson p) := by
    rw [cleanContentMain, fenceFirstMatch_wrap_pad l p r hl hr hnf htrim hne]
  refine ⟨?_, ?_, ?_, ?_⟩
  · rw [decodeMain, decodeMain, hcc2, hok, hparse1]
  · rw [decodeMain, hparse1]
  · rw [decodeP7, decodeP7, hcc2, hok, hparse1]
  · rw [decodeP7, hparse1]

/-- C4 amended-claim witness at a concrete payload with a leading newline
and trailing space-and-newline padding. -/
theorem C4_fence_strip_transparent_witness :
    decodeMain (fenceWrap (['\n'] ++ str "\x7b\"a\":1\x7d" ++ [' ', '\n'])) =
      decodeMain (['\n'] ++ str "\x7b\"a\":1\x7d" ++ [' ', '\n']) ∧
    decodeMain (['\n'] ++ str "\x7b\"a\":1\x7d" ++ [' ', '\n']) =
      .ok (.jobj [(['a'], .jnum ['1'])]) := by
  have h := C4_fence_strip_transparent ['\n'] (str "\x7b\"a\":1\x7d") [' ', '\n']
    (.jobj [(['a'], .jnum ['1'])]) rfl rfl rfl rfl (by decide) rfl
  exact ⟨h.1, h.2.1⟩

end RSSGen

namespace RSSGen

theorem containsSubstr_nil_pat (b : Str) : containsSubstr [] b = true := by
  cases b <;> simp [containsSubstr, List.isPrefixOf]

theorem containsSubstr_append_self (pat a b : Str) :
    containsSubstr pat (a ++ (pat ++ b)) = true := by
  induction a with
  | nil =>
    cases pat with
    | nil => exact containsSubstr_nil_pat b
    | cons c r =>
      rw [List.nil_append, List.cons_append, containsSubstr]
      have hpre : (c :: r).isPrefixOf (c :: (r ++ b)) = true := by
        rw [List.isPrefixOf_iff_prefix]
        exact ⟨b, by simp⟩
      rw [hpre]
      simp
  | cons x a2 ih =>
    rw [List.cons_append, containsSubstr, ih]
    simp

theorem msg_contains_raw (e content : Str) :
    containsSubstr (content.take 100)
      (str "Failed to parse AI response: " ++ e ++ str ". Raw: " ++
        content.take 100 ++ str "...") = true := by
  have hassoc : str "Failed to parse AI response: " ++ e ++ str ". Raw: " ++
      content.take 100 ++ str "..." =
      (str "Failed to parse AI response: " ++ e ++ str ". Raw: ") ++
      (content.take 100 ++ str "...") := by simp
  rw [hassoc]
  exact containsSubstr_append_self _ _ _

/-- C5: the `part_007` decoder produces a decode error only when the
repaired primary parse (fence stripping, control-character stripping,
bad-unicode double-escaping) has failed and the first-brace-to-last-brace
substring retry has also failed (or was impossible for want of braces), and
the error message then carries the first 100 characters of the raw model
text. -/
theorem C5_decode_error_after_all_repairs (content m : Str)
    (h : decodeP7 content = .error m) :
    (∃ e, jsonParse (cleanContentMain content) = .error e) ∧
    (∀ i j, firstIdxChar '{' content = some i → lastIdxChar '}' content = some j →
      ∃ e2, jsonParse ((content.drop i).take (j + 1 - i)) = .error e2) ∧
    containsSubstr (content.take 100) m = true := by
  rw [decodeP7] at h
  cases hp : jsonParse (cleanContentMain content) with
  | ok v =>
    rw [hp] at h
    exact Except.noConfusion h
  | error e =>
    simp only [hp] at h
    refine ⟨⟨e, rfl⟩, ?_, ?_⟩
    · intro i j hi hj
      simp only [hi, hj] at h
      cases hq : jsonParse ((content.drop i).take (j + 1 - i)) with
      | ok v =>
        simp only [hq] at h
        exact Except.noConfusion h
      | error e2 => exact ⟨e2, rfl⟩
    · cases hi : firstIdxChar '{' content with
      | none =>
        simp only [hi] at h
        injection h with hm
        rw [← hm]
        exact msg_contains_raw e content
      | some i =>
        cases hj : lastIdxChar '}' content with
        | none =>
          simp only [hi, hj] at h
          injection h with hm
          rw [← hm]
          exact msg_contains_raw e content
        | some j =>
          simp only [hi, hj] at h
          cases hq : jsonParse ((content.drop i).take (j + 1 - i)) with
          | ok v =>
            simp only [hq] at h
            exact Except.noConfusion h
          | error e2 =>
            simp only [hq] at h
            injection h with hm
            rw [← hm]
            exact msg_contains_raw e content

/-- C5 witness: a concrete non-JSON model output makes the decoder fail,
with the raw prefix embedded in the message. -/
theorem C5_decode_error_witness :
    (∃ e, jsonParse (cleanContentMain (str "no json here")) = .error e) ∧
    (∀ i j, firstIdxChar '{' (str "no json here") = some i →
      lastIdxChar '}' (str "no json here") = some j →
      ∃ e2, jsonParse (((str "no json here").drop i).take (j + 1 - i)) = .error e2) ∧
    containsSubstr ((str "no json here").take 100)
      (str "Failed to parse AI response: Unexpected token in JSON. Raw: no json here...")
      = true :=
  C5_decode_error_after_all_repairs (str "no json here")
    (str "Failed to parse AI response: Unexpected token in JSON. Raw: no json here...")
    rfl

/-- C6 counterexample: a model response of `"null"` parses successfully to
JSON `null`, whose `items` field is certainly absent — yet the pipeline
does not produce zero items: the member access `parsedData.items` at
`main.js` line 217 (identically `geminiService.ts` line 121) throws a
`TypeError` on `null`, so the pipeline fails instead. -/
theorem C6_items_null_counterexample :
    jsonParse (str "null") = .ok .jnull ∧
    objGet .jnull (str "items") = none ∧
    itemsJS .jnull =
      .error
        (str "TypeError: Cannot read properties of null (reading 'items')") :=
  ⟨rfl, rfl, rfl⟩

/-- C6 as amended: for every decoded model response other than JSON `null`,
the `items` field is optional — an absent or non-array value gives exactly
zero items without failing, and an array is passed through unchanged in
document order (`main.js` line 217); a response decoding to JSON `null`
instead makes the member access `parsedData.items` itself throw, and the
pipeline fails rather than producing zero items. -/
theorem C6_items_optional (v : JVal) :
    (v ≠ .jnull →
      itemsJS v = .ok (itemsOf v) ∧
      ((¬ ∃ l, objGet v (str "items") = some (.jarr l)) → itemsJS v = .ok []) ∧
      (∀ l, objGet v (str "items") = some (.jarr l) → itemsJS v = .ok l)) ∧
    (v = .jnull → ∃ e, itemsJS v = .error e) := by
  constructor
  · intro hv
    have hok : itemsJS v = .ok (itemsOf v) := by
      cases v with
      | jnull => exact absurd rfl hv
      | jbool b => rfl
      | jnum n => rfl
      | jstr s => rfl
      | jarr l => rfl
      | jobj fs => rfl
    refine ⟨hok, ?_, ?_⟩
    · intro hne
      rw [hok]
      have hz : itemsOf v = [] := by
        rw [itemsOf]
        cases hm : objGet v (str "items") with
        | none => rfl
        | some x =>
          cases x with
          | jarr l => exact absurd ⟨l, hm⟩ hne
          | jnull => rfl
          | jbool b => rfl
          | jnum n => rfl
          | jstr s => rfl
          | jobj fs => rfl
      rw [hz]
    · intro l hl
      rw [hok, itemsOf, hl]
  · intro hv
    subst hv
    exact ⟨_, rfl⟩

/-- C6 witness: a present array is passed through in order; a numeric
`items` value yields zero items without failure; the `null` parse result
makes the access fail. -/
theorem C6_items_optional_witness :
    itemsJS (.jobj [(str "items", .jarr [.jnull, .jbool true])]) =
      .ok [.jnull, .jbool true] ∧
    itemsJS (.jobj [(str "items", .jnum ['1'])]) = .ok [] ∧
    (∃ e, itemsJS .jnull = .error e) := by
  have hne1 : (JVal.jobj [(str "items", .jarr [.jnull, .jbool true])]) ≠
      .jnull := by intro h; exact JVal.noConfusion h
  have hne2 : (JVal.jobj [(str "items", .jnum ['1'])]) ≠ .jnull := by
    intro h; exact JVal.noConfusion h
  refine ⟨?_, ?_, (C6_items_optional .jnull).2 rfl⟩
  · exact ((C6_items_optional _).1 hne1).2.2 [.jnull, .jbool true] rfl
  · refine ((C6_items_optional _).1 hne2).2.1 ?_
    rintro ⟨l, hl⟩
    rw [show objGet (.jobj [(str "items", .jnum ['1'])]) (str "items") =
        some (.jnum ['1']) from rfl] at hl
    injection hl with h2
    exact JVal.noConfusion h2

end RSSGen

namespace RSSGen

/-- An item of the model's raw extraction (`RawExtraction.items` entry);
absent JS fields behave like the empty string in every use below
(defaulting, truthiness, escaping), so fields are plain strings. -/
structure RawItem where
  title : Str
  link : Str
  description : Str
  pubDate : Str
  image : Str

/-- `geminiService.ts` lines 126-132: resolve the link against the page URL,
keeping the original on failure (`resolve` models `new URL(l, url).href`). -/
def finalLinkGS (resolve : Str → Str → Option Str) (url : Str) (item : RawItem) :
    Str :=
  (resolve item.link url).getD item.link

/-- `geminiService.ts` lines 135-140: resolve the image if present (empty
means absent), keeping the original on failure. -/
def finalImageGS (resolve : Str → Str → Option Str) (url : Str) (item : RawItem) :
    Str :=
  if item.image = [] then item.image
  else (resolve item.image url).getD item.image

/-- `geminiService.ts` lines 142-145: the image block — an `<enclosure>`
with type `image/jpeg` and length `0`, plus a `<media:content>` carrying the
same escaped URL; empty when there is no image. -/
def imgTagGS (img : Str) : Str :=
  if img = [] then []
  else
    str "<enclosure url=\"" ++ escapeXml img ++
    str "\" type=\"image/jpeg\" length=\"0\" />\n           <media:content url=\"" ++
    escapeXml img ++ str "\" medium=\"image\" />"

/-- `geminiService.ts` line 148: `item.description || item.title ||
'No description available'`. -/
def chosenDescriptionGS (item : RawItem) : Str :=
  jsOr item.description (jsOr item.title (str "No description available"))

/-- The serialized item up to (not including) the image block
(`geminiService.ts` lines 150-157). -/
def rssItemPreGS (resolve : Str → Str → Option Str) (url now : Str)
    (item : RawItem) : Str :=
  str "\n        <item>\n          <title>" ++
  escapeXml (jsOr item.title (str "No Title")) ++
  str "</title>\n          <link>" ++
  escapeXml (jsOr (finalLinkGS resolve url item) (str "#")) ++
  str "</link>\n          <guid isPermaLink=\"true\">" ++
  escapeXml (jsOr (finalLinkGS resolve url item) (str "#")) ++
  str "</guid>\n          <description>" ++
  escapeXml (chosenDescriptionGS item) ++
  str "</description>\n          <pubDate>" ++
  escapeXml (jsOr item.pubDate now) ++
  str "</pubDate>\n          "

/-- One serialized item of `geminiService.ts` lines 150-159 (`now` stands
for `new Date().toUTCString()`). -/
def rssItemGS (resolve : Str → Str → Option Str) (url now : Str)
    (item : RawItem) : Str :=
  rssItemPreGS resolve url now item ++
  imgTagGS (finalImageGS resolve url item) ++
  str "\n        </item>\n      "

/-- Head test used by `ltFollowOk`: the next character after a `<` must be
from `allowed`. -/
def ltHeadOk (allowed : List Char) : Str → Bool
  | [] => false
  | d :: _ => allowed.contains d

/-- Scanner: every `<` is immediately followed by a character from
`allowed` (in particular, no `<` is the last character). -/
def ltFollowOk (allowed : List Char) : Str → Bool
  | [] => true
  | c :: rest =>
    (if c = '<' then ltHeadOk allowed rest else true) && ltFollowOk allowed rest

theorem ltFollowOk_append (A : List Char) (a b : Str)
    (h1 : ltFollowOk A a = true) (h2 : ltFollowOk A b = true) :
    ltFollowOk A (a ++ b) = true := by
  induction a with
  | nil => simpa using h2
  | cons c rest ih =>
    rw [ltFollowOk] at h1
    rw [List.cons_append, ltFollowOk]
    simp only [Bool.and_eq_true] at h1 ⊢
    refine ⟨?_, ih h1.2⟩
    by_cases hc : c = '<'
    · subst hc
      simp only [if_true] at h1 ⊢
      cases rest with
      | nil => exact absurd h1.1 (by simp [ltHeadOk])
      | cons d r2 => simpa [ltHeadOk] using h1.1
    · simp [hc]

theorem ltFollowOk_of_no_lt (A : List Char) (s : Str)
    (h : ∀ c ∈ s, c ≠ '<') : ltFollowOk A s = true := by
  induction s with
  | nil => rfl
  | cons c rest ih =>
    rw [ltFollowOk]
    simp only [Bool.and_eq_true]
    refine ⟨?_, ih (fun x hx => h x (List.mem_cons_of_mem c hx))⟩
    have hc : c ≠ '<' := h c (List.mem_cons_self c rest)
    simp [hc]

theorem escapeXml_no_lt (s : Str) : ∀ c ∈ escapeXml s, c ≠ '<' := by
  intro c hc
  have hall := xmlSafeChars_escapeXml s
  rw [xmlSafeChars, List.all_eq_true] at hall
  have := hall c hc
  simp only [Bool.not_eq_true', Bool.or_eq_false_iff] at this
  intro he
  subst he
  simp at this

theorem ltFollowOk_suffix (A : List Char) (x t : Str)
    (h : ltFollowOk A (x ++ t) = true) : ltFollowOk A t = true := by
  induction x with
  | nil => simpa using h
  | cons c rest ih =>
    rw [List.cons_append, ltFollowOk] at h
    simp only [Bool.and_eq_true] at h
    exact ih h.2

theorem not_lt_pair_infix (A : List Char) (d : Char) (s : Str)
    (hd : A.contains d = false) (h : ltFollowOk A s = true) :
    ¬ (['<', d] <:+: s) := by
  rintro ⟨x, t, hxt⟩
  have hs2 : x ++ ('<' :: d :: t) = s := by
    rw [← hxt]
    simp
  have hs : ltFollowOk A ('<' :: d :: t) = true := by
    apply ltFollowOk_suffix A x
    rw [hs2]
    exact h
  rw [ltFollowOk] at hs
  simp only [if_true, Bool.and_eq_true] at hs
  have hcd : A.contains d = true := by simpa [ltHeadOk] using hs.1
  rw [hd] at hcd
  exact Bool.noConfusion hcd

end RSSGen

namespace RSSGen

/-- The `<enclosure>` tag emitted for an image (`geminiService.ts` line 143). -/
def enclosureTagGS (img : Str) : Str :=
  str "<enclosure url=\"" ++ escapeXml img ++
  str "\" type=\"image/jpeg\" length=\"0\" />"

/-- The `<media:content>` tag emitted for an image (`geminiService.ts`
line 144). -/
def mediaTagGS (img : Str) : Str :=
  str "<media:content url=\"" ++ escapeXml img ++ str "\" medium=\"image\" />"

theorem imgTagGS_split (img : Str) (himg : img ≠ []) :
    imgTagGS img =
      enclosureTagGS img ++ str "\n           " ++ mediaTagGS img := by
  rw [imgTagGS, if_neg himg, enclosureTagGS, mediaTagGS]
  have hlit : str "\" type=\"image/jpeg\" length=\"0\" />\n           <media:content url=\"" =
      str "\" type=\"image/jpeg\" length=\"0\" />" ++ str "\n           " ++
      str "<media:content url=\"" := by decide
  rw [hlit]
  simp [List.append_assoc]

/-- The allowed `<`-successors in an imageless serialized item. -/
def gsTagHeads : List Char := ['i', 't', '/', 'l', 'g', 'd', 'p']

theorem ltFollowOk_rssItemGS_no_image (resolve : Str → Str → Option Str)
    (url now : Str) (item : RawItem)
    (himg : finalImageGS resolve url item = []) :
    ltFollowOk gsTagHeads (rssItemGS resolve url now item) = true := by
  rw [rssItemGS, himg, rssItemPreGS]
  have hz : imgTagGS [] = [] := rfl
  rw [hz]
  repeat'
    apply ltFollowOk_append
  all_goals
    first
    | decide
    | exact ltFollowOk_of_no_lt _ _ (escapeXml_no_lt _)

/-- C7: an item serialized with a resolved image carries both the
`<enclosure type="image/jpeg" length="0">` tag and the parallel
`<media:content>` tag with the same escaped URL; an item with no resolved
image carries neither tag (`geminiService.ts` lines 142-159). -/
theorem C7_enclosure_media_tags (resolve : Str → Str → Option Str)
    (url now : Str) (item : RawItem) :
    (finalImageGS resolve url item ≠ [] →
      enclosureTagGS (finalImageGS resolve url item) <:+:
        rssItemGS resolve url now item ∧
      mediaTagGS (finalImageGS resolve url item) <:+:
        rssItemGS resolve url now item) ∧
    (finalImageGS resolve url item = [] →
      ¬ ((str "<enclosure") <:+: rssItemGS resolve url now item) ∧
      ¬ ((str "<media:content") <:+: rssItemGS resolve url now item)) := by
  constructor
  · intro himg
    have hsplit := imgTagGS_split (finalImageGS resolve url item) himg
    constructor
    · refine ⟨rssItemPreGS resolve url now item,
        str "\n           " ++ mediaTagGS (finalImageGS resolve url item) ++
          str "\n        </item>\n      ", ?_⟩
      rw [rssItemGS, hsplit]
      simp [List.append_assoc]
    · refine ⟨rssItemPreGS resolve url now item ++
        enclosureTagGS (finalImageGS resolve url item) ++ str "\n           ",
        str "\n        </item>\n      ", ?_⟩
      rw [rssItemGS, hsplit]
      simp [List.append_assoc]
  · intro himg
    have hlt := ltFollowOk_rssItemGS_no_image resolve url now item himg
    constructor
    · intro hinf
      refine not_lt_pair_infix gsTagHeads 'e' _ (by decide) hlt ?_
      exact ((show ['<', 'e'] <+: str "<enclosure" by decide).isInfix).trans hinf
    · intro hinf
      refine not_lt_pair_infix gsTagHeads 'm' _ (by decide) hlt ?_
      exact ((show ['<', 'm'] <+: str "<media:content" by decide).isInfix).trans hinf

/-- C7 witness at concrete items with and without an image. -/
theorem C7_enclosure_media_tags_witness :
    (enclosureTagGS (str "https://e.com/i.jpg") <:+:
      rssItemGS (fun i _ => some i) (str "https://e.com") (str "now")
        ⟨str "T", str "https://e.com/a", str "D", str "pd", str "https://e.com/i.jpg"⟩ ∧
     mediaTagGS (str "https://e.com/i.jpg") <:+:
      rssItemGS (fun i _ => some i) (str "https://e.com") (str "now")
        ⟨str "T", str "https://e.com/a", str "D", str "pd", str "https://e.com/i.jpg"⟩) ∧
    (¬ ((str "<enclosure") <:+:
      rssItemGS (fun i _ => some i) (str "https://e.com") (str "now")
        ⟨str "T", str "https://e.com/a", str "D", str "pd", []⟩) ∧
     ¬ ((str "<media:content") <:+:
      rssItemGS (fun i _ => some i) (str "https://e.com") (str "now")
        ⟨str "T", str "https://e.com/a", str "D", str "pd", []⟩)) := by
  constructor
  · exact (C7_enclosure_media_tags (fun i _ => some i) (str "https://e.com")
      (str "now") ⟨str "T", str "https://e.com/a", str "D", str "pd",
        str "https://e.com/i.jpg"⟩).1 (by decide)
  · exact (C7_enclosure_media_tags (fun i _ => some i) (str "https://e.com")
      (str "now") ⟨str "T", str "https://e.com/a", str "D", str "pd", []⟩).2 rfl

end RSSGen

namespace RSSGen

/-- C8 counterexample: for an item whose extracted description and title
are both empty, the serialized description is the literal
`No description available`, not the item's (empty) title: the claimed
"defaults to the item's title" does not hold in this case (and defaulting to
the title there would contradict the claim's own never-blank guarantee). -/
theorem C8_description_default_counterexample :
    chosenDescriptionGS ⟨[], [], [], [], []⟩ = str "No description available" ∧
    (⟨[], [], [], [], []⟩ : RawItem).title = [] ∧
    chosenDescriptionGS ⟨[], [], [], [], []⟩ ≠ (⟨[], [], [], [], []⟩ : RawItem).title := by
  refine ⟨rfl, rfl, by decide⟩

/-- C8 as amended: the serialized description value is never blank — it is
the extracted description when non-empty, else the item's title when that is
non-empty, else the literal `No description available`; and a missing
pubDate defaults to the current time (`new Date().toUTCString()`, the `now`
parameter), emitted escaped in the `<pubDate>` element
(`geminiService.ts` lines 147-157). -/
theorem C8_description_pubDate_defaults (resolve : Str → Str → Option Str)
    (url now : Str) (item : RawItem) :
    chosenDescriptionGS item ≠ [] ∧
    (item.description ≠ [] → chosenDescriptionGS item = item.description) ∧
    (item.description = [] → item.title ≠ [] →
      chosenDescriptionGS item = item.title) ∧
    (item.description = [] → item.title = [] →
      chosenDescriptionGS item = str "No description available") ∧
    ((str "<description>" ++ escapeXml (chosenDescriptionGS item) ++
      str "</description>") <:+: rssItemGS resolve url now item) ∧
    (item.pubDate = [] →
      (str "<pubDate>" ++ escapeXml now ++ str "</pubDate>") <:+:
        rssItemGS resolve url now item) := by
  refine ⟨?_, ?_, ?_, ?_, ?_, ?_⟩
  · rw [chosenDescriptionGS]
    by_cases hd : item.description = []
    · rw [jsOr, if_pos hd]
      by_cases ht : item.title = []
      · rw [jsOr, if_pos ht]
        simp [str, jsOr]
      · rw [jsOr, if_neg ht]
        exact ht
    · rw [jsOr, if_neg hd]
      exact hd
  · intro hd
    rw [chosenDescriptionGS, jsOr, if_neg hd]
  · intro hd ht
    rw [chosenDescriptionGS, jsOr, if_pos hd, jsOr, if_neg ht]
  · intro hd ht
    rw [chosenDescriptionGS, jsOr, if_pos hd, jsOr, if_pos ht]
  · refine ⟨str "\n        <item>\n          <title>" ++
      escapeXml (jsOr item.title (str "No Title")) ++
      str "</title>\n          <link>" ++
      escapeXml (jsOr (finalLinkGS resolve url item) (str "#")) ++
      str "</link>\n          <guid isPermaLink=\"true\">" ++
      escapeXml (jsOr (finalLinkGS resolve url item) (str "#")) ++
      str "</guid>\n          ",
      str "\n          <pubDate>" ++ escapeXml (jsOr item.pubDate now) ++
      str "</pubDate>\n          " ++
      imgTagGS (finalImageGS resolve url item) ++
      str "\n        </item>\n      ", ?_⟩
    rw [rssItemGS, rssItemPreGS]
    have h1 : str "</guid>\n          <description>" =
        str "</guid>\n          " ++ str "<description>" := by decide
    have h2 : str "</description>\n          <pubDate>" =
        str "</description>" ++ str "\n          <pubDate>" := by decide
    rw [h1, h2]
    simp [List.append_assoc]
  · intro hp
    refine ⟨str "\n        <item>\n          <title>" ++
      escapeXml (jsOr item.title (str "No Title")) ++
      str "</title>\n          <link>" ++
      escapeXml (jsOr (finalLinkGS resolve url item) (str "#")) ++
      str "</link>\n          <guid isPermaLink=\"true\">" ++
      escapeXml (jsOr (finalLinkGS resolve url item) (str "#")) ++
      str "</guid>\n          <description>" ++
      escapeXml (chosenDescriptionGS item) ++
      str "</description>\n          ",
      str "\n          " ++
      imgTagGS (finalImageGS resolve url item) ++
      str "\n        </item>\n      ", ?_⟩
    rw [rssItemGS, rssItemPreGS, hp]
    have h1 : str "</description>\n          <pubDate>" =
        str "</description>\n          " ++ str "<pubDate>" := by decide
    have h2 : str "</pubDate>\n          " =
        str "</pubDate>" ++ str "\n          " := by decide
    rw [h1, h2]
    have h3 : jsOr ([] : Str) now = now := by rw [jsOr]; simp
    rw [h3]
    simp [List.append_assoc]

/-- C8 amended-claim witness at a concrete item with empty description and
missing pubDate. -/
theorem C8_description_pubDate_defaults_witness :
    chosenDescriptionGS ⟨str "T", str "L", [], [], []⟩ = str "T" ∧
    (str "<pubDate>" ++ escapeXml (str "now") ++ str "</pubDate>") <:+:
      rssItemGS (fun i _ => some i) (str "https://e.com") (str "now")
        ⟨str "T", str "L", [], [], []⟩ := by
  constructor
  · exact (C8_description_pubDate_defaults (fun i _ => some i)
      (str "https://e.com") (str "now") ⟨str "T", str "L", [], [], []⟩).2.2.1
      rfl (by decide)
  · exact (C8_description_pubDate_defaults (fun i _ => some i)
      (str "https://e.com") (str "now") ⟨str "T", str "L", [], [], []⟩).2.2.2.2.2
      rfl

end RSSGen

namespace RSSGen

/-- One attempt of `/<script\b[^>]*>([\s\S]*?)<\/script>/gmi` (or the
`style` analogue) at the current position: case-insensitive opening tag, a
word boundary, any non-`>` run, `>`, then a lazy body up to the first
case-insensitive closing tag.  Returns the remainder after the whole
match. -/
def matchTagBlock (tag : Str) (s : Str) : Option Str :=
  if ('<' :: tag).isPrefixOf (lowerStr s) then
    let rest1 := s.drop (tag.length + 1)
    let bOk :=
      match rest1 with
      | [] => true
      | d :: _ => !(d.isAlphanum || d = '_')
    if bOk then
      match firstIdxChar '>' rest1 with
      | none => none
      | some k =>
        let body := rest1.drop (k + 1)
        match firstIdx ('<' :: '/' :: (tag ++ ['>'])) (lowerStr body) with
        | none => none
        | some i => some (body.drop (i + tag.length + 3))
    else none
  else none

/-- Global replacement of tag blocks by the empty string, scanning left to
right (fuel bounds the scan, amply covered by the caller). -/
def stripTagBlocksGo (tag : Str) : Nat → Str → Str
  | 0, s => s
  | _ + 1, [] => []
  | fuel + 1, c :: rest =>
    match matchTagBlock tag (c :: rest) with
    | some after => stripTagBlocksGo tag fuel after
    | none => c :: stripTagBlocksGo tag fuel rest

/-- Remove every `<tag ...>...</tag>` block. -/
def stripTagBlocks (tag : Str) (s : Str) : Str :=
  stripTagBlocksGo tag (s.length + 1) s

/-- `.replace(/\s+/g, " ")`: collapse whitespace runs to single spaces. -/
def collapseWsGo : Str → Str
  | [] => []
  | c :: rest =>
    if isWs c then ' ' :: collapseWsGo (rest.dropWhile isWs)
    else c :: collapseWsGo rest
termination_by s => s.length
decreasing_by
  all_goals simp
  have hle := (List.dropWhile_suffix (l := rest) isWs).length_le
  omega

/-- The content cleaning of `part_005` lines 147-150: strip script blocks,
strip style blocks, collapse whitespace, truncate to 150000 characters. -/
def sanitizeP5 (html : Str) : Str :=
  (collapseWsGo (stripTagBlocks (str "style")
    (stripTagBlocks (str "script") html))).take 150000

/-- The hallucination-guard feed of `part_005` lines 155-168, returned
without consulting the model: an explicit error channel whose only item is
the fixed fetch-failure notice (`now` is `new Date().toUTCString()`). -/
def errorFeedXmlP5 (url now : Str) : Str :=
  str "<?xml version=\"1.0\" encoding=\"UTF-8\"?>\n<rss version=\"2.0\">\n  <channel>\n    <title>Error: Could not fetch content</title>\n    <description>The target website could not be reached or blocked the request.</description>\n    <item>\n      <title>Error: Fetch Failed</title>\n      <description>Could not retrieve live content from " ++
  escapeXml url ++
  str "</description>\n      <link>" ++
  escapeXml url ++
  str "</link>\n      <guid>" ++
  escapeXml url ++
  str "#error</guid>\n      <pubDate>" ++
  now ++
  str "</pubDate>\n    </item>\n  </channel>\n</rss>"

/-- Global fence replacement
`content.replace(/```(?:json)?\s*([\s\S]*?)\s*```/g, "$1")`
(`part_005` line 218), keeping each captured group. -/
def replaceFencesGo : Nat → Str → Str
  | 0, s => s
  | _ + 1, [] => []
  | fuel + 1, c :: rest =>
    if (str "```").isPrefixOf (c :: rest) then
      match fenceMatchAt (c :: rest) with
      | some (g, after) => g ++ replaceFencesGo fuel after
      | none => c :: replaceFencesGo fuel rest
    else c :: replaceFencesGo fuel rest

/-- Wrapper supplying the scan fuel. -/
def replaceFencesGlobal (s : Str) : Str := replaceFencesGo (s.length + 1) s

/-- The truncation repair of `part_005` lines 220-226: when the cleaned
text does not end in a closing brace but contains an `"items": [` marker,
cut at the last closing brace, append `]}` if missing, and prepend `{` if
missing. -/
def repairTruncationP5 (cc : Str) : Str :=
  if jsEndsWith (str "\x7d") cc then cc
  else if containsSubstr (str "\"items\": [") cc then
    let c1 :=
      match lastIdxChar '\x7d' cc with
      | some j => cc.take (j + 1)
      | none => []
    let c2 := if jsEndsWith (str "]\x7d") c1 then c1 else c1 ++ str "]\x7d"
    if (str "\x7b").isPrefixOf c2 then c2 else '\x7b' :: c2
  else cc

/-- The decoder of `part_005` lines 216-240: global fence stripping, trim,
truncation repair, parse; then the brace-to-brace retry, with error
messages carrying the first 100 characters of the raw content. -/
def decodeP5 (content : Str) : Except Str JVal :=
  let cc := repairTruncationP5 (jsTrim (replaceFencesGlobal content))
  match jsonParse cc with
  | .ok v => .ok v
  | .error e =>
    match firstIdxChar '{' content, lastIdxChar '}' content with
    | some i, some j =>
      match jsonParse ((content.drop i).take (j + 1 - i)) with
      | .ok v => .ok v
      | .error _ =>
        .error (str "JSON Parse Failed: " ++ e ++ str " | Content head: " ++
          content.take 100)
    | _, _ => .error (str "Failed to parse AI response: " ++ content.take 100)

/-- A string field of a decoded item; the prompt schema makes these fields
strings, and a missing (or non-string) field behaves as the empty string in
the template defaulting below. -/
def jvStr (v : JVal) (k : Str) : Str :=
  match objGet v k with
  | some (.jstr s) => s
  | _ => []

/-- One serialized item of `part_005` lines 246-307.  `resolve` models
`new URL(·, ·).href`; `discover` models the Jina enrichment fetch and its
image-mining regexes (lines 256-281), `none` when nothing is found; `now`
is `new Date().toUTCString()` and `nowMs` the `Date.now()` cache-buster. -/
def itemP5 (resolve : Str → Str → Option Str) (discover : Str → Option Str)
    (url now nowMs : Str) (item : JVal) : Str :=
  let finalLink := (resolve (jvStr item (str "link")) url).getD (jvStr item (str "link"))
  let finalImage := itemImageMain resolve discover url finalLink
    (some (jvStr item (str "image")))
  let img := match finalImage with
    | some s => s
    | none => []
  let mediaTag := if img = [] then [] else
    str "<media:content url=\"" ++ escapeXml img ++ str "\" medium=\"image\" />"
  let thumbnailTag := if img = [] then [] else
    str "<media:thumbnail url=\"" ++ escapeXml img ++ str "\" />"
  let enclosureTag := if img = [] then [] else
    str "<enclosure url=\"" ++ escapeXml img ++
    str "\" type=\"image/jpeg\" length=\"0\" />"
  let descriptionWithImage :=
    jsOr (jvStr item (str "description")) (jvStr item (str "title")) ++
    (if img = [] then [] else
      str "<br/><img src=\"" ++ escapeXml img ++
      str "\" style=\"max-width:100%;height:auto;margin-top:10px;\" />")
  str "\n            <item>\n              <title>" ++
  escapeXml (jsOr (jvStr item (str "title")) (str "No Title")) ++
  str "</title>\n              <link>" ++
  escapeXml (jsOr finalLink (str "#")) ++
  str "</link>\n              <guid isPermaLink=\"false\">" ++
  escapeXml (jsOr finalLink (str "#")) ++
  str "?t=" ++ nowMs ++
  str "</guid>\n              <description>" ++
  cdata descriptionWithImage ++
  str "</description>\n              <pubDate>" ++
  escapeXml (jsOr (jvStr item (str "pubDate")) now) ++
  str "</pubDate>\n              " ++
  mediaTag ++ str "\n              " ++ thumbnailTag ++ str "\n              " ++
  enclosureTag ++ str "\n            </item>\n          "

/-- The serialized feed of `part_005` lines 242-318: at most the first three
decoded items are processed (`items.slice(0, 3)`), joined into the channel
template, and the result trimmed. -/
def serializeP5 (parsedData : JVal) (resolve : Str → Str → Option Str)
    (discover : Str → Option Str) (url now nowMs : Str) : Str :=
  let enriched := ((itemsOf parsedData).take 3).map (itemP5 resolve discover url now nowMs)
  jsTrim
    (str "<?xml version=\"1.0\" encoding=\"UTF-8\"?>\n<rss version=\"2.0\" xmlns:media=\"http://search.yahoo.com/mrss/\" xmlns:dc=\"http://purl.org/dc/elements/1.1/\">\n  <channel>\n    <title>" ++
    escapeXml (jsOr (jvStr parsedData (str "title")) (str "Generated Feed")) ++
    str "</title>\n    <link>" ++
    escapeXml url ++
    str "</link>\n    <description>" ++
    cdata (jsOr (jvStr parsedData (str "description")) (str "RSS feed generated by AI")) ++
    str "</description>\n    " ++
    enriched.flatten ++
    str "\n  </channel>\n</rss>")

/-- `generateRSSFromURL` of `part_005` lines 141-324.  `fetched` is the
`fetchWebPage` result (empty after all fallbacks on total failure),
`modelContent` the LLM completion text (its network call is I/O and assumed
answered when this branch is reached), and the remaining parameters model
the other I/O effects as in `itemP5`. -/
def generateRSSP5 (fetched modelContent : Str)
    (resolve : Str → Str → Option Str) (discover : Str → Option Str)
    (url now nowMs : Str) : Except Str Str :=
  let cleanedHtml :=
    if fetched = [] then str "No live content available." else sanitizeP5 fetched
  if cleanedHtml = str "No live content available." then
    .ok (errorFeedXmlP5 url now)
  else
    match decodeP5 modelContent with
    | .error e => .error e
    | .ok parsedData => .ok (serializeP5 parsedData resolve discover url now nowMs)

end RSSGen

namespace RSSGen

/-- C2: when the page fetch comes back empty after all fallbacks, the
`part_005` pipeline short-circuits to the fixed fetch-failure feed: the
result is independent of whatever the model would answer (no fabricated
item list can enter it), and its channel title carries the explicit failure
indicator `Error: Could not fetch content`. -/
theorem C2_fetch_failed_short_circuit (resolve : Str → Str → Option Str)
    (discover : Str → Option Str) (url now nowMs : Str) (m1 m2 : Str) :
    generateRSSP5 [] m1 resolve discover url now nowMs =
      .ok (errorFeedXmlP5 url now) ∧
    generateRSSP5 [] m1 resolve discover url now nowMs =
      generateRSSP5 [] m2 resolve discover url now nowMs ∧
    (str "<title>Error: Could not fetch content</title>") <:+:
      errorFeedXmlP5 url now := by
  refine ⟨rfl, rfl, ?_⟩
  refine ⟨str "<?xml version=\"1.0\" encoding=\"UTF-8\"?>\n<rss version=\"2.0\">\n  <channel>\n    ",
    str "\n    <description>The target website could not be reached or blocked the request.</description>\n    <item>\n      <title>Error: Fetch Failed</title>\n      <description>Could not retrieve live content from " ++
    escapeXml url ++
    str "</description>\n      <link>" ++
    escapeXml url ++
    str "</link>\n      <guid>" ++
    escapeXml url ++
    str "#error</guid>\n      <pubDate>" ++
    now ++
    str "</pubDate>\n    </item>\n  </channel>\n</rss>", ?_⟩
  rw [errorFeedXmlP5]
  have hsplit : str "<?xml version=\"1.0\" encoding=\"UTF-8\"?>\n<rss version=\"2.0\">\n  <channel>\n    <title>Error: Could not fetch content</title>\n    <description>The target website could not be reached or blocked the request.</description>\n    <item>\n      <title>Error: Fetch Failed</title>\n      <description>Could not retrieve live content from " =
      str "<?xml version=\"1.0\" encoding=\"UTF-8\"?>\n<rss version=\"2.0\">\n  <channel>\n    " ++
      str "<title>Error: Could not fetch content</title>" ++
      str "\n    <description>The target website could not be reached or blocked the request.</description>\n    <item>\n      <title>Error: Fetch Failed</title>\n      <description>Could not retrieve live content from " := by
    rfl
  rw [hsplit]
  simp [List.append_assoc]

end RSSGen

namespace RSSGen

/-- Decoding of the five XML named entities: the text decoding a
conforming XML parser (DOMParser) applies to the character data this
serializer emits — on the output of `escapeXml` only these five entities
occur (see `C10_escapeXml_output_safe`), so on that output this decode is
exact.  It does NOT model the far richer `decodeEntities` of
`storageService.ts` lines 73-78 (a `textarea` innerHTML decode resolving
every HTML character reference, `&copy;`, `&#65;`, legacy semicolon-less
forms included): that decoder enters the development only abstractly, as a
function hypothesized to be the identity on `ampInertOk` strings — which
the textarea decode is, since on such strings no character reference can
start — and `decodeNamedEntities_of_ampInert` shows this five-entity
decode satisfies the same hypothesis, making it a valid concrete instance
for witnesses. -/
def decodeNamedEntities : Str → Str
  | [] => []
  | '&' :: 'l' :: 't' :: ';' :: rest => '<' :: decodeNamedEntities rest
  | '&' :: 'g' :: 't' :: ';' :: rest => '>' :: decodeNamedEntities rest
  | '&' :: 'a' :: 'm' :: 'p' :: ';' :: rest => '&' :: decodeNamedEntities rest
  | '&' :: 'a' :: 'p' :: 'o' :: 's' :: ';' :: rest => '\'' :: decodeNamedEntities rest
  | '&' :: 'q' :: 'u' :: 'o' :: 't' :: ';' :: rest => '"' :: decodeNamedEntities rest
  | c :: rest => c :: decodeNamedEntities rest

set_option maxHeartbeats 1600000 in
theorem decodeNamedEntities_cons_ne (c : Char) (rest : Str) (hc : c ≠ '&') :
    decodeNamedEntities (c :: rest) = c :: decodeNamedEntities rest := by
  conv_lhs => rw [decodeNamedEntities.eq_def]
  split
  all_goals simp_all

theorem decodeNamedEntities_escapeXml (s : Str) :
    decodeNamedEntities (escapeXml s) = stripCtlXml s := by
  induction s with
  | nil => rfl
  | cons c rest ih =>
    rw [escapeXml_cons]
    have hstrip : stripCtlXml (c :: rest) =
        (if isXmlInvalidCtl c then [] else [c]) ++ stripCtlXml rest := by
      rw [stripCtlXml, List.filter_cons]
      by_cases hc : isXmlInvalidCtl c <;> simp [hc, stripCtlXml]
    rw [hstrip]
    by_cases h1 : c = '<'
    · subst h1
      rw [show stripCtlXml (escChar '<') = ['&', 'l', 't', ';'] from by decide]
      rw [show (['&', 'l', 't', ';'] ++ escapeXml rest : Str) =
        '&' :: 'l' :: 't' :: ';' :: escapeXml rest from rfl]
      rw [show decodeNamedEntities ('&' :: 'l' :: 't' :: ';' :: escapeXml rest) =
        '<' :: decodeNamedEntities (escapeXml rest) from rfl]
      rw [ih]
      rfl
    by_cases h2 : c = '>'
    · subst h2
      rw [show stripCtlXml (escChar '>') = ['&', 'g', 't', ';'] from by decide]
      rw [show (['&', 'g', 't', ';'] ++ escapeXml rest : Str) =
        '&' :: 'g' :: 't' :: ';' :: escapeXml rest from rfl]
      rw [show decodeNamedEntities ('&' :: 'g' :: 't' :: ';' :: escapeXml rest) =
        '>' :: decodeNamedEntities (escapeXml rest) from rfl]
      rw [ih]
      rfl
    by_cases h3 : c = '&'
    · subst h3
      rw [show stripCtlXml (escChar '&') = ['&', 'a', 'm', 'p', ';'] from by decide]
      rw [show (['&', 'a', 'm', 'p', ';'] ++ escapeXml rest : Str) =
        '&' :: 'a' :: 'm' :: 'p' :: ';' :: escapeXml rest from rfl]
      rw [show decodeNamedEntities ('&' :: 'a' :: 'm' :: 'p' :: ';' :: escapeXml rest) =
        '&' :: decodeNamedEntities (escapeXml rest) from rfl]
      rw [ih]
      rfl
    by_cases h4 : c = '\''
    · subst h4
      rw [show stripCtlXml (escChar '\'') = ['&', 'a', 'p', 'o', 's', ';'] from by decide]
      rw [show (['&', 'a', 'p', 'o', 's', ';'] ++ escapeXml rest : Str) =
        '&' :: 'a' :: 'p' :: 'o' :: 's' :: ';' :: escapeXml rest from rfl]
      rw [show decodeNamedEntities ('&' :: 'a' :: 'p' :: 'o' :: 's' :: ';' :: escapeXml rest) =
        '\'' :: decodeNamedEntities (escapeXml rest) from rfl]
      rw [ih]
      rfl
    by_cases h5 : c = '"'
    · subst h5
      rw [show stripCtlXml (escChar '"') = ['&', 'q', 'u', 'o', 't', ';'] from by decide]
      rw [show (['&', 'q', 'u', 'o', 't', ';'] ++ escapeXml rest : Str) =
        '&' :: 'q' :: 'u' :: 'o' :: 't' :: ';' :: escapeXml rest from rfl]
      rw [show decodeNamedEntities ('&' :: 'q' :: 'u' :: 'o' :: 't' :: ';' :: escapeXml rest) =
        '"' :: decodeNamedEntities (escapeXml rest) from rfl]
      rw [ih]
      rfl
    · by_cases hc : isXmlInvalidCtl c
      · rw [show stripCtlXml (escChar c) = [] from by
          simp [escChar, h1, h2, h3, h4, h5, stripCtlXml, hc]]
        simp [ih, hc]
      · rw [show stripCtlXml (escChar c) = [c] from by
          simp [escChar, h1, h2, h3, h4, h5, stripCtlXml, hc]]
        rw [show ([c] ++ escapeXml rest : Str) = c :: escapeXml rest from rfl]
        rw [decodeNamedEntities_cons_ne c _ h3, ih]
        simp [hc]

end RSSGen

namespace RSSGen

/-- Characters that can begin the body of an HTML character reference after
an `&`: `#` opens a numeric reference and ASCII alphanumerics can open a
named reference (semicolon-terminated or legacy semicolon-less). -/
def isRefStartChar (c : Char) : Bool :=
  c = '#' || (48 ≤ c.toNat && c.toNat ≤ 57) || (65 ≤ c.toNat && c.toNat ≤ 90) ||
  (97 ≤ c.toNat && c.toNat ≤ 122)

/-- No HTML character reference can begin anywhere in the string: every `&`
is final or followed by a character that starts no reference.  The HTML
(RCDATA) text decode performed by assigning to a `textarea`'s `innerHTML`
(`decodeEntities`, `storageService.ts` lines 73-78) is the identity on such
strings, since a character reference is consumed only at `&` + `#`/alnum;
and so is the five-entity XML decode
(`decodeNamedEntities_of_ampInert`). -/
def ampInertOk : Str → Bool
  | [] => true
  | '&' :: c :: rest => !isRefStartChar c && ampInertOk (c :: rest)
  | _ :: rest => ampInertOk rest

set_option maxHeartbeats 1600000 in
theorem ampInertOk_cons_ne (c : Char) (rest : Str) (hc : c ≠ '&') :
    ampInertOk (c :: rest) = ampInertOk rest := by
  conv_lhs => rw [ampInertOk.eq_def]
  split
  all_goals simp_all

set_option maxHeartbeats 1600000 in
theorem decodeNamedEntities_amp_ne (c : Char) (rest : Str)
    (h1 : c ≠ 'l') (h2 : c ≠ 'g') (h3 : c ≠ 'a') (h4 : c ≠ 'q') :
    decodeNamedEntities ('&' :: c :: rest) =
      '&' :: decodeNamedEntities (c :: rest) := by
  conv_lhs => rw [decodeNamedEntities.eq_def]
  split
  all_goals simp_all
  all_goals (rename_i heq; exact heq.1.symm)

theorem decodeNamedEntities_of_ampInert_bounded : ∀ (n : Nat) (s : Str),
    s.length ≤ n → ampInertOk s = true → decodeNamedEntities s = s := by
  intro n
  induction n with
  | zero =>
    intro s hlen _
    have : s = [] := List.length_eq_zero.mp (Nat.le_zero.mp hlen)
    subst this
    rfl
  | succ n ih =>
    intro s hlen h
    cases s with
    | nil => rfl
    | cons c rest =>
      by_cases hc : c = '&'
      · subst hc
        cases rest with
        | nil => decide
        | cons c2 r2 =>
          have hunf : ampInertOk ('&' :: c2 :: r2) =
              (!isRefStartChar c2 && ampInertOk (c2 :: r2)) := rfl
          rw [hunf] at h
          have hnr : isRefStartChar c2 = false := by
            cases hx : isRefStartChar c2 with
            | false => rfl
            | true => rw [hx] at h; simp at h
          have hrec : ampInertOk (c2 :: r2) = true := by
            cases hx : ampInertOk (c2 :: r2) with
            | true => rfl
            | false => rw [hx] at h; simp at h
          have hne1 : c2 ≠ 'l' := by
            intro hx; subst hx; exact absurd hnr (by decide)
          have hne2 : c2 ≠ 'g' := by
            intro hx; subst hx; exact absurd hnr (by decide)
          have hne3 : c2 ≠ 'a' := by
            intro hx; subst hx; exact absurd hnr (by decide)
          have hne4 : c2 ≠ 'q' := by
            intro hx; subst hx; exact absurd hnr (by decide)
          rw [decodeNamedEntities_amp_ne c2 r2 hne1 hne2 hne3 hne4]
          have hlen2 : (c2 :: r2).length ≤ n := by
            simp at hlen ⊢
            omega
          rw [ih (c2 :: r2) hlen2 hrec]
      · rw [decodeNamedEntities_cons_ne c rest hc]
        rw [ampInertOk_cons_ne c rest hc] at h
        have hlen2 : rest.length ≤ n := by
          simp at hlen
          omega
        rw [ih rest hlen2 h]

/-- On a string in which no character reference can start, the five-entity
decode is the identity (as is the full textarea decode). -/
theorem decodeNamedEntities_of_ampInert (s : Str) (h : ampInertOk s = true) :
    decodeNamedEntities s = s :=
  decodeNamedEntities_of_ampInert_bounded s.length s (Nat.le_refl _) h

end RSSGen

namespace RSSGen

mutual

/-- The XML documents this pipeline serializes, as trees (the DOMParser
output `parseXMLToFeed` works on).  `textE raw` is character data carrying
the pre-escape text (rendered through `escapeXml`); `rawText` is literal
inter-tag template text; `cdataN s` is a CDATA section carrying `s`
(rendered through `cdata`, whose `]]>`-splitting makes the rendered
sections' concatenated character data exactly `s`).  Attribute values are
stored pre-escape and rendered through `escapeXml`. -/
inductive XNode where
  | elem (tag : Str) (attrs : List (Str × Str)) (children : XNodes)
  | textE (raw : Str)
  | rawText (s : Str)
  | cdataN (s : Str)

/-- Child list spine (a separate inductive so that the tree functions are
structurally recursive and compute definitionally). -/
inductive XNodes where
  | nil
  | cons (n : XNode) (rest : XNodes)

end

/-- Build a child spine from a list. -/
def xnodes : List XNode → XNodes
  | [] => .nil
  | n :: r => .cons n (xnodes r)

/-- Attribute rendering: ` key="escaped value"`. -/
def renderAttrs (attrs : List (Str × Str)) : Str :=
  attrs.flatMap (fun p => ' ' :: (p.1 ++ ('=' :: '"' :: (escapeXml p.2 ++ ['"']))))

mutual

/-- Serialize a tree node to markup text. -/
def renderNode : XNode → Str
  | .elem tag attrs children =>
    match children with
    | .nil => ('<' :: (tag ++ renderAttrs attrs)) ++ str " />"
    | .cons a b =>
      ('<' :: (tag ++ renderAttrs attrs)) ++ ('>' :: renderNodes (.cons a b)) ++
      ('<' :: '/' :: (tag ++ ['>']))
  | .textE raw => escapeXml raw
  | .rawText s => s
  | .cdataN s => cdata s

/-- Serialize a child spine. -/
def renderNodes : XNodes → Str
  | .nil => []
  | .cons n rest => renderNode n ++ renderNodes rest

end

mutual

/-- DOM `textContent`: concatenated character data of all descendants, with
XML entity references decoded (`textE` carries pre-escape text, so its
contribution is the decode of its escaped rendering) and CDATA content
verbatim. -/
def textContentNode : XNode → Str
  | .elem _ _ children => textContentNodes children
  | .textE raw => decodeNamedEntities (escapeXml raw)
  | .rawText s => decodeNamedEntities s
  | .cdataN s => s

def textContentNodes : XNodes → Str
  | .nil => []
  | .cons n rest => textContentNode n ++ textContentNodes rest

end

mutual

/-- `querySelector(tag)` on an element: first descendant element with the
given tag, in document (preorder) order, the element itself excluded. -/
def qselNode (tag : Str) : XNode → Option XNode
  | .elem _ _ children => qselNodes tag children
  | _ => none

def qselNodes (tag : Str) : XNodes → Option XNode
  | .nil => none
  | .cons n rest =>
    match n with
    | .elem t a ch =>
      if t = tag then some (.elem t a ch)
      else
        match qselNodes tag ch with
        | some r => some r
        | none => qselNodes tag rest
    | _ => qselNodes tag rest

end

/-- `xmlDoc.querySelector(tag)`: like `qselNode` but the root element
itself is also a candidate. -/
def qselDoc (tag : Str) (root : XNode) : Option XNode :=
  match root with
  | .elem t _ _ => if t = tag then some root else qselNode tag root
  | _ => qselNode tag root

mutual

/-- All matching elements in preorder (self included), as
`querySelectorAll`/`getElementsByTagName` return them. -/
def collectNode (tag : Str) : XNode → List XNode
  | .elem t a ch =>
    (if t = tag then [XNode.elem t a ch] else []) ++ collectNodes tag ch
  | _ => []

def collectNodes (tag : Str) : XNodes → List XNode
  | .nil => []
  | .cons n rest => collectNode tag n ++ collectNodes tag rest

end

/-- `node.getElementsByTagName(tag)` on an element: matching descendants,
the element itself excluded. -/
def collectIn (tag : Str) : XNode → List XNode
  | .elem _ _ ch => collectNodes tag ch
  | _ => []

/-- `getAttribute(k)`: the XML-decoded attribute value (attribute values
are stored pre-escape and rendered through `escapeXml`, so the DOM-visible
value is the decode of that rendering); `none` models `null`. -/
def getAttr (k : Str) : XNode → Option Str
  | .elem _ attrs _ =>
    (attrs.find? (fun p => p.1 == k)).map
      (fun p => decodeNamedEntities (escapeXml p.2))
  | _ => none

/-- `querySelector(tag)?.textContent` within an element. -/
def qtext (tag : Str) (n : XNode) : Option Str :=
  (qselNode tag n).map textContentNode

end RSSGen

namespace RSSGen

/-- Case-insensitive prefix test (for the `/i` regexes of the parser). -/
def ciPrefix (pat s : Str) : Bool := pat.isPrefixOf (lowerStr (s.take pat.length))

/-- Search inside an `<img ...>` tag for `src=["']([^"']+)["']` after at
least one non-`>` character, continuing past failed candidates as regex
backtracking does; stops at the tag-closing `>`. -/
def srcScanGo : Nat → Str → Option Str
  | 0, _ => none
  | fuel + 1, t =>
    match t with
    | [] => none
    | c :: rest =>
      if c = '>' then none
      else if ciPrefix (str "src=") t then
        match t.drop 4 with
        | q :: rest2 =>
          if q = '"' || q = '\'' then
            let cap := rest2.takeWhile (fun c2 => !(c2 = '"' || c2 = '\''))
            if cap ≠ [] && rest2.drop cap.length ≠ [] then some cap
            else srcScanGo fuel rest
          else srcScanGo fuel rest
        | [] => srcScanGo fuel rest
      else srcScanGo fuel rest

/-- One attempt of `/<img[^>]+src=["']([^"']+)["']/i` at a position where
`tagRest` is the text after `<img`: the `[^>]+` must consume at least one
character before `src=`. -/
def imgAttempt (tagRest : Str) : Option Str :=
  match tagRest with
  | [] => none
  | c :: rest => if c = '>' then none else srcScanGo (rest.length + 1) rest

/-- First match of the inline-image regex over the whole subject. -/
def findImgSrcGo : Nat → Str → Option Str
  | 0, _ => none
  | fuel + 1, s =>
    match s with
    | [] => none
    | _ :: rest =>
      if ciPrefix (str "<img") s then
        match imgAttempt (s.drop 4) with
        | some cap => some cap
        | none => findImgSrcGo fuel rest
      else findImgSrcGo fuel rest

/-- `combinedContent.match(/<img[^>]+src=["']([^"']+)["']/i)` of
`storageService.ts` line 128. -/
def findImgSrc (s : Str) : Option Str := findImgSrcGo (s.length + 1) s

/-- JS truthiness of the running `imageUrl` value (`undefined` or empty
string are falsy). -/
def imageFalsy (o : Option Str) : Bool :=
  match o with
  | none => true
  | some s => s = []

/-- Step 2 of the parser's image discovery (`storageService.ts` lines
95-105): try the media tag names in order; an element whose `url` attribute
is missing or empty does not break the loop.  `dec` is the
`decodeEntities` textarea decode, kept abstract (see `ampInertOk`). -/
def mediaLoop (dec : Str → Str) (node : XNode) : List Str → Option Str
  | [] => none
  | t :: rest =>
    match collectIn t node with
    | e :: _ =>
      match getAttr (str "url") e with
      | some u =>
        if u = [] then mediaLoop dec node rest
        else some (dec u)
      | none => mediaLoop dec node rest
    | [] => mediaLoop dec node rest

/-- Steps 1-4 of the parser's per-item image discovery
(`storageService.ts` lines 82-132): enclosure url, media tags by name, the
namespace-resolved retry (which in these documents finds the same
`media:content`/`media:thumbnail` elements, the `media` prefix being bound
to the MRSS namespace), then an inline `<img src>` scanned out of the
description and `content:encoded` text. -/
def imageFromItem (dec : Str → Str) (node : XNode) : Option Str :=
  let i1 : Option Str :=
    match collectIn (str "enclosure") node with
    | enc :: _ =>
      match getAttr (str "url") enc with
      | some u => if u = [] then none else some (dec u)
      | none => none
    | [] => none
  let i2 :=
    if imageFalsy i1 then
      mediaLoop dec node [str "media:content", str "media:thumbnail",
        str "content", str "thumbnail"]
    else i1
  let i3 :=
    if imageFalsy i2 then
      match collectIn (str "media:content") node with
      | e :: _ => some (dec ((getAttr (str "url") e).getD []))
      | [] =>
        match collectIn (str "media:thumbnail") node with
        | e :: _ => some (dec ((getAttr (str "url") e).getD []))
        | [] => i2
    else i2
  if imageFalsy i3 then
    let combined := (qtext (str "description") node).getD [] ++
      (((collectIn (str "content:encoded") node).head?.map textContentNode).getD [])
    match findImgSrc combined with
    | some cap => some (dec cap)
    | none => i3
  else i3

/-- The typed item `parseXMLToFeed` builds (`storageService.ts` lines
134-141). -/
structure ParsedItem where
  title : Str
  link : Str
  description : Str
  pubDate : Str
  guid : Str
  imageUrl : Option Str

/-- The typed channel `parseXMLToFeed` returns (`storageService.ts` lines
147-153). -/
structure ParsedFeed where
  title : Str
  link : Str
  description : Str
  lastBuildDate : Option Str
  items : List ParsedItem

/-- One item of `parseXMLToFeed` (`storageService.ts` lines 81-145): every
text field is entity-decoded by `dec` (the `decodeEntities` textarea
decode, kept abstract) after extraction, with the defaults of lines
135-139, and the link additionally trimmed. -/
def parseItemNode (dec : Str → Str) (node : XNode) : ParsedItem :=
  { title := dec (jsOr ((qtext (str "title") node).getD [])
      (str "No Title")),
    link := jsTrim (dec (jsOr ((qtext (str "link") node).getD [])
      (str "#"))),
    description := dec ((qtext (str "description") node).getD []),
    pubDate := dec ((qtext (str "pubDate") node).getD []),
    guid := dec ((qtext (str "guid") node).getD []),
    imageUrl := imageFromItem dec node }

/-- `parseXMLToFeed` of `storageService.ts` lines 49-154 on a parsed
document tree.  The `parsererror` branch of lines 54-59 corresponds to
DOMParser rejecting malformed markup: a tree stands for a document
DOMParser accepted, which is why the round-trip theorems require every
serialized text field to be free of the XML-invalid control characters
(and of bare carriage returns, which XML line-ending normalization would
rewrite) that would make the rendered markup ill-formed or alter it; under
those hypotheses only the missing-channel error remains.  `dec` is the
`decodeEntities` textarea decode, kept abstract and applied only to item
fields — channel-level fields are not entity-decoded. -/
def parseXMLToFeedDoc (dec : Str → Str) (doc : XNode) : Except Str ParsedFeed :=
  match qselDoc (str "channel") doc with
  | none => .error (str "Invalid RSS: No channel element found in the response.")
  | some channel =>
    .ok
      { title := jsOr ((qtext (str "title") channel).getD []) (str "Untitled Feed"),
        link := (qtext (str "link") channel).getD [],
        description := (qtext (str "description") channel).getD [],
        lastBuildDate := qtext (str "lastBuildDate") channel,
        items := (collectNode (str "item") doc).map (parseItemNode dec) }

end RSSGen

namespace RSSGen

/-- An enriched item as `main.js` serializes it (lines 259-272): the final
resolved link and image and the raw extracted text fields (absent fields
behave as the empty string; an empty `image` is falsy and emits no
enclosure). -/
structure MainItem where
  title : Str
  finalLink : Str
  description : Str
  pubDate : Str
  image : Str

/-- The `<item>` element of `main.js` lines 263-272 as a tree. -/
def itemElemMain (now : Str) (it : MainItem) : XNode :=
  .elem (str "item") [] (xnodes
    ([.rawText (str "\n              "),
      .elem (str "title") [] (xnodes [.textE (jsOr it.title (str "No Title"))]),
      .rawText (str "\n              "),
      .elem (str "link") [] (xnodes [.textE (jsOr it.finalLink (str "#"))]),
      .rawText (str "\n              "),
      .elem (str "guid") [(str "isPermaLink", str "true")]
        (xnodes [.textE (jsOr it.finalLink (str "#"))]),
      .rawText (str "\n              "),
      .elem (str "description") []
        (xnodes [.cdataN (jsOr it.description (jsOr it.title []))]),
      .rawText (str "\n              "),
      .elem (str "pubDate") [] (xnodes [.textE (jsOr it.pubDate now)]),
      .rawText (str "\n              ")] ++
     (if it.image = [] then [] else
      [.elem (str "enclosure")
        [(str "url", it.image), (str "type", str "image/jpeg"),
         (str "length", str "0")] (xnodes [])]) ++
     [.rawText (str "\n            ")]))

/-- The template text surrounding one item (each item string of `main.js`
starts and ends with the template's own whitespace). -/
def itemNodesMain (now : Str) (it : MainItem) : List XNode :=
  [.rawText (str "\n            "), itemElemMain now it,
   .rawText (str "\n          ")]

/-- The `<channel>` element of `main.js` lines 282-287 as a tree. -/
def channelElemMain (chTitle chDesc url now : Str) (items : List MainItem) :
    XNode :=
  .elem (str "channel") [] (xnodes
    ([.rawText (str "\n    "),
      .elem (str "title") []
        (xnodes [.textE (jsOr chTitle (str "Generated Feed"))]),
      .rawText (str "\n    "),
      .elem (str "link") [] (xnodes [.textE url]),
      .rawText (str "\n    "),
      .elem (str "description") []
        (xnodes [.cdataN (jsOr chDesc (str "RSS feed generated by AI"))]),
      .rawText (str "\n    ")] ++
     items.flatMap (itemNodesMain now) ++
     [.rawText (str "\n  ")]))

/-- The document of `main.js` lines 279-288 as a tree (the root `rss`
element; the XML declaration and generator comment precede it in the
rendered string). -/
def feedTreeMain (chTitle chDesc url now : Str) (items : List MainItem) : XNode :=
  .elem (str "rss")
    [(str "version", str "2.0"),
     (str "xmlns:media", str "http://search.yahoo.com/mrss/"),
     (str "xmlns:dc", str "http://purl.org/dc/elements/1.1/")]
    (xnodes
      [.rawText (str "\n  "),
       channelElemMain chTitle chDesc url now items,
       .rawText (str "\n")])

/-- One serialized item string of `main.js` lines 259-272. -/
def itemXmlMain (now : Str) (it : MainItem) : Str :=
  str "\n            <item>\n              <title>" ++
  escapeXml (jsOr it.title (str "No Title")) ++
  str "</title>\n              <link>" ++
  escapeXml (jsOr it.finalLink (str "#")) ++
  str "</link>\n              <guid isPermaLink=\"true\">" ++
  escapeXml (jsOr it.finalLink (str "#")) ++
  str "</guid>\n              <description>" ++
  cdata (jsOr it.description (jsOr it.title [])) ++
  str "</description>\n              <pubDate>" ++
  escapeXml (jsOr it.pubDate now) ++
  str "</pubDate>\n              " ++
  (if it.image = [] then [] else
    str "<enclosure url=\"" ++ escapeXml it.image ++
    str "\" type=\"image/jpeg\" length=\"0\" />") ++
  str "\n            </item>\n          "

/-- The serialized feed string of `main.js` lines 279-288 (with the
trailing `.trim()`). -/
def generateRSSXmlMain (chTitle chDesc url now : Str) (items : List MainItem) :
    Str :=
  jsTrim
    (str "<?xml version=\"1.0\" encoding=\"UTF-8\"?>\n<!-- Generated by RSS Gen v2.1 (Node 20 Upgrade) -->\n<rss version=\"2.0\" xmlns:media=\"http://search.yahoo.com/mrss/\" xmlns:dc=\"http://purl.org/dc/elements/1.1/\">\n  <channel>\n    <title>" ++
    escapeXml (jsOr chTitle (str "Generated Feed")) ++
    str "</title>\n    <link>" ++
    escapeXml url ++
    str "</link>\n    <description>" ++
    cdata (jsOr chDesc (str "RSS feed generated by AI")) ++
    str "</description>\n    " ++
    (items.map (itemXmlMain now)).flatten ++
    str "\n  </channel>\n</rss>")

end RSSGen

namespace RSSGen

theorem renderNodes_xnodes_append (a b : List XNode) :
    renderNodes (xnodes (a ++ b)) =
      renderNodes (xnodes a) ++ renderNodes (xnodes b) := by
  induction a with
  | nil => simp [xnodes, renderNodes]
  | cons n r ih => simp [xnodes, renderNodes, ih]

set_option maxHeartbeats 1000000 in
set_option maxRecDepth 4000 in
theorem renderNodes_item (now : Str) (it : MainItem) :
    renderNodes (xnodes (itemNodesMain now it)) = itemXmlMain now it := by
  have e1 : escapeXml ['t', 'r', 'u', 'e'] = ['t', 'r', 'u', 'e'] := by decide
  have e2 : escapeXml ['i', 'm', 'a', 'g', 'e', '/', 'j', 'p', 'e', 'g'] =
      ['i', 'm', 'a', 'g', 'e', '/', 'j', 'p', 'e', 'g'] := by decide
  have e3 : escapeXml ['0'] = ['0'] := by decide
  by_cases h : it.image = []
  · simp [itemNodesMain, itemElemMain, itemXmlMain, xnodes, renderNodes,
      renderNode, renderAttrs, h, str, e1, e2, e3, List.append_assoc]
  · simp [itemNodesMain, itemElemMain, itemXmlMain, xnodes, renderNodes,
      renderNode, renderAttrs, h, str, e1, e2, e3, List.append_assoc]

theorem renderNodes_items (now : Str) (items : List MainItem) :
    renderNodes (xnodes (items.flatMap (itemNodesMain now))) =
      (items.map (itemXmlMain now)).flatten := by
  induction items with
  | nil => rfl
  | cons it rest ih =>
    rw [List.flatMap_cons, renderNodes_xnodes_append, renderNodes_item,
      List.map_cons, List.flatten_cons, ih]

set_option maxHeartbeats 1600000 in
set_option maxRecDepth 8000 in
theorem render_feedTreeMain (chTitle chDesc url now : Str)
    (items : List MainItem) :
    generateRSSXmlMain chTitle chDesc url now items =
      jsTrim
        (str "<?xml version=\"1.0\" encoding=\"UTF-8\"?>\n<!-- Generated by RSS Gen v2.1 (Node 20 Upgrade) -->\n" ++
         renderNode (feedTreeMain chTitle chDesc url now items)) := by
  rw [generateRSSXmlMain]
  congr 1
  have e1 : escapeXml ['2', '.', '0'] = ['2', '.', '0'] := by decide
  have e2 : escapeXml ['h', 't', 't', 'p', ':', '/', '/', 's', 'e', 'a', 'r', 'c', 'h', '.', 'y', 'a', 'h', 'o', 'o', '.', 'c', 'o', 'm', '/', 'm', 'r', 's', 's', '/'] =
      ['h', 't', 't', 'p', ':', '/', '/', 's', 'e', 'a', 'r', 'c', 'h', '.', 'y', 'a', 'h', 'o', 'o', '.', 'c', 'o', 'm', '/', 'm', 'r', 's', 's', '/'] := by decide
  have e3 : escapeXml ['h', 't', 't', 'p', ':', '/', '/', 'p', 'u', 'r', 'l', '.', 'o', 'r', 'g', '/', 'd', 'c', '/', 'e', 'l', 'e', 'm', 'e', 'n', 't', 's', '/', '1', '.', '1', '/'] =
      ['h', 't', 't', 'p', ':', '/', '/', 'p', 'u', 'r', 'l', '.', 'o', 'r', 'g', '/', 'd', 'c', '/', 'e', 'l', 'e', 'm', 'e', 'n', 't', 's', '/', '1', '.', '1', '/'] := by decide
  simp [feedTreeMain, channelElemMain, renderNode, renderNodes, xnodes,
    renderAttrs, renderNodes_xnodes_append, renderNodes_items, str, e1, e2, e3,
    List.append_assoc]

end RSSGen
namespace RSSGen

theorem collectNodes_xnodes_append (tag : Str) (a b : List XNode) :
    collectNodes tag (xnodes (a ++ b)) =
      collectNodes tag (xnodes a) ++ collectNodes tag (xnodes b) := by
  induction a with
  | nil => simp [xnodes, collectNodes]
  | cons n r ih => simp [xnodes, collectNodes, ih]

set_option maxHeartbeats 1000000 in
set_option maxRecDepth 4000 in
theorem collectNodes_itemGroup (now : Str) (it : MainItem) :
    collectNodes (str "item") (xnodes (itemNodesMain now it)) =
      [itemElemMain now it] := by
  by_cases h : it.image = []
  · simp [itemNodesMain, itemElemMain, xnodes, collectNodes, collectNode, h, str]
  · simp [itemNodesMain, itemElemMain, xnodes, collectNodes, collectNode, h, str]

end RSSGen
namespace RSSGen

/-- Hypotheses under which one serialized item round-trips its claimed
fields through the real pipeline: each field is free of the XML-invalid
control characters that would leave ill-formed markup in the rendered
document (DOMParser would reject it — note `cdata` does not strip them
from descriptions), free of carriage returns (XML line-ending
normalization rewrites a bare `\r` to `\n`), non-empty (a serializer
default would replace it), inert under HTML entity decoding (`ampInertOk`:
no character reference can start, so the parser's second, textarea-level
decode changes nothing — the double decode of `C1_roundtrip_counterexample`
is what this excludes), and free of a case-insensitive `</textarea` (which
would end the RCDATA text of the textarea decode early); the resolved link
is additionally trimmed, as the parser trims links. -/
def itemRoundTripOk (it : MainItem) : Prop :=
  stripCtlXml it.title = it.title ∧ it.title ≠ [] ∧
  ampInertOk it.title = true ∧ '\r' ∉ it.title ∧
  containsSubstr (str "</textarea") (lowerStr it.title) = false ∧
  stripCtlXml it.finalLink = it.finalLink ∧ it.finalLink ≠ [] ∧
  ampInertOk it.finalLink = true ∧ '\r' ∉ it.finalLink ∧
  containsSubstr (str "</textarea") (lowerStr it.finalLink) = false ∧
  jsTrim it.finalLink = it.finalLink ∧
  stripCtlXml it.description = it.description ∧ it.description ≠ [] ∧
  ampInertOk it.description = true ∧ '\r' ∉ it.description ∧
  containsSubstr (str "</textarea") (lowerStr it.description) = false

set_option maxHeartbeats 1000000 in
set_option maxRecDepth 4000 in
theorem parseItem_fields (dec : Str → Str)
    (hdec : ∀ s, ampInertOk s = true → dec s = s)
    (now : Str) (it : MainItem) (h : itemRoundTripOk it) :
    (parseItemNode dec (itemElemMain now it)).title = it.title ∧
    (parseItemNode dec (itemElemMain now it)).link = it.finalLink ∧
    (parseItemNode dec (itemElemMain now it)).description = it.description := by
  obtain ⟨ht1, ht2, ht3, -, -, hl1, hl2, hl3, -, -, hl4, -, hd1, hd2, -, -⟩ := h
  have hdt : dec it.title = it.title := hdec _ ht3
  have hdl : dec it.finalLink = it.finalLink := hdec _ hl3
  have hdd : dec it.description = it.description := hdec _ hd2
  refine ⟨?_, ?_, ?_⟩
  · simp [parseItemNode, itemElemMain, qtext, qselNode, qselNodes, xnodes,
      textContentNode, textContentNodes, str, decodeNamedEntities_escapeXml,
      jsOr, ht2, ht1, hdt]
  · simp [parseItemNode, itemElemMain, qtext, qselNode, qselNodes, xnodes,
      textContentNode, textContentNodes, str, decodeNamedEntities_escapeXml,
      jsOr, hl2, hl1, hdl, hl4]
  · simp [parseItemNode, itemElemMain, qtext, qselNode, qselNodes, xnodes,
      textContentNode, textContentNodes, str, decodeNamedEntities_escapeXml,
      jsOr, hd1, hdd]

end RSSGen
namespace RSSGen

theorem collectNodes_items (now : Str) (items : List MainItem) :
    collectNodes (str "item") (xnodes (items.flatMap (itemNodesMain now))) =
      items.map (itemElemMain now) := by
  induction items with
  | nil => rfl
  | cons it rest ih =>
    rw [List.flatMap_cons, collectNodes_xnodes_append, collectNodes_itemGroup,
      List.map_cons, ih]
    rfl

set_option maxHeartbeats 1600000 in
set_option maxRecDepth 4000 in
theorem parse_feedTreeMain (dec : Str → Str)
    (hdec : ∀ s, ampInertOk s = true → dec s = s)
    (chTitle chDesc url now : Str)
    (items : List MainItem)
    (hT1 : stripCtlXml chTitle = chTitle) (hT2 : chTitle ≠ [])
    (hT3 : '\r' ∉ chTitle)
    (hU : stripCtlXml url = url) (hU2 : '\r' ∉ url)
    (hD : chDesc ≠ []) (hD1 : stripCtlXml chDesc = chDesc)
    (hD2 : '\r' ∉ chDesc)
    (hitems : ∀ it ∈ items, itemRoundTripOk it) :
    ∃ f, parseXMLToFeedDoc dec (feedTreeMain chTitle chDesc url now items) =
        .ok f ∧
      f.title = chTitle ∧ f.link = url ∧ f.description = chDesc ∧
      f.items.map (fun p => (p.title, p.link, p.description)) =
        items.map (fun it2 => (it2.title, it2.finalLink, it2.description)) := by
  have hch : qselDoc (str "channel") (feedTreeMain chTitle chDesc url now items) =
      some (channelElemMain chTitle chDesc url now items) := by
    simp [feedTreeMain, channelElemMain, qselDoc, qselNode, qselNodes, xnodes, str]
  have hcollect : collectNode (str "item")
      (feedTreeMain chTitle chDesc url now items) =
      items.map (itemElemMain now) := by
    have hx := collectNodes_items now items
    simp [str] at hx
    simp [feedTreeMain, channelElemMain, collectNode, collectNodes, xnodes,
      collectNodes_xnodes_append, hx, str]
  simp only [parseXMLToFeedDoc, hch]
  refine ⟨_, rfl, ?_, ?_, ?_, ?_⟩
  · simp [channelElemMain, qtext, qselNode, qselNodes, xnodes, textContentNode,
      textContentNodes, decodeNamedEntities_escapeXml, str, jsOr, hT1, hT2]
  · simp [channelElemMain, qtext, qselNode, qselNodes, xnodes, textContentNode,
      textContentNodes, decodeNamedEntities_escapeXml, str, jsOr, hU]
  · simp [channelElemMain, qtext, qselNode, qselNodes, xnodes, textContentNode,
      textContentNodes, decodeNamedEntities_escapeXml, str, jsOr, hD]
  · rw [hcollect, List.map_map, List.map_map]
    refine List.map_congr_left ?_
    intro it hmem
    obtain ⟨h1, h2, h3⟩ := parseItem_fields dec hdec now it (hitems it hmem)
    simp [Function.comp, h1, h2, h3]

end RSSGen

namespace RSSGen

/-- C1 counterexample: the round trip is not faithful for fields containing
entity-like text.  For a channel whose one item has description `&amp;`
(five literal characters), serializing with `main.js` and parsing with
`parseXMLToFeed` returns description `&`: the CDATA section carries
`&amp;` verbatim, and the parser's extra `decodeEntities` pass
(`storageService.ts` lines 73-78, applied on top of the XML parser's own
entity decoding) collapses it.  On this input the textarea decode agrees
with the five-entity `decodeNamedEntities` instantiated for `dec` (`&amp;`
is one of the five entities it resolves).  The same double decode hits
item titles. -/
theorem C1_roundtrip_counterexample :
    ∃ f, parseXMLToFeedDoc decodeNamedEntities (feedTreeMain (str "T") (str "D")
        (str "https://e.com") (str "now")
        [⟨str "A", str "https://e.com/a", str "&amp;", str "pd", []⟩]) = .ok f ∧
      f.items.map (fun p => p.description) = [str "&"] ∧
      str "&" ≠ str "&amp;" :=
  ⟨_, rfl, rfl, by decide⟩

/-- C1 as amended: serializing a channel with `main.js` and parsing it back
with `parseXMLToFeed` reproduces the channel title, link and description
and each item's title, resolved link and description, provided every field
is free of XML-invalid control characters (escaped fields have them
stripped by `escapeXml`; in the CDATA descriptions they would leave
ill-formed markup DOMParser rejects) and of carriage returns (XML
line-ending normalization rewrites them), the title/description fields and
resolved links are non-empty (else serializer defaults replace them), links
carry no surrounding whitespace (the parser trims them), and — because the
parser entity-decodes every extracted item field a second time after the
XML parser has already decoded once — the item fields are inert under HTML
entity decoding: no `&` is followed by `#` or an ASCII alphanumeric, and
no case-insensitive `</textarea` appears; a bare `&` (e.g. a description
containing `&`) does survive escape-then-decode.  The entity decoder `dec`
of `decodeEntities` is kept abstract: any function that is the identity on
such inert strings, which the textarea innerHTML decode is (no character
reference can start in them).  The serialized string is exactly the
rendering of the parsed document tree after the XML prolog. -/
theorem C1_serialize_parse_roundtrip (dec : Str → Str)
    (hdec : ∀ s, ampInertOk s = true → dec s = s)
    (chTitle chDesc url now : Str)
    (items : List MainItem)
    (hT1 : stripCtlXml chTitle = chTitle) (hT2 : chTitle ≠ [])
    (hT3 : '\r' ∉ chTitle)
    (hU : stripCtlXml url = url) (hU2 : '\r' ∉ url)
    (hD : chDesc ≠ []) (hD1 : stripCtlXml chDesc = chDesc)
    (hD2 : '\r' ∉ chDesc)
    (hitems : ∀ it ∈ items, itemRoundTripOk it) :
    generateRSSXmlMain chTitle chDesc url now items =
      jsTrim
        (str "<?xml version=\"1.0\" encoding=\"UTF-8\"?>\n<!-- Generated by RSS Gen v2.1 (Node 20 Upgrade) -->\n" ++
         renderNode (feedTreeMain chTitle chDesc url now items)) ∧
    (∃ f, parseXMLToFeedDoc dec (feedTreeMain chTitle chDesc url now items) =
        .ok f ∧
      f.title = chTitle ∧ f.link = url ∧ f.description = chDesc ∧
      f.items.map (fun p => (p.title, p.link, p.description)) =
        items.map (fun it2 => (it2.title, it2.finalLink, it2.description))) :=
  ⟨render_feedTreeMain chTitle chDesc url now items,
   parse_feedTreeMain dec hdec chTitle chDesc url now items hT1 hT2 hT3 hU hU2
     hD hD1 hD2 hitems⟩

/-- C1 amended-claim witness: a concrete channel with one item whose
description contains a bare `&` round-trips all claimed fields, the
five-entity decode (the identity on these inert fields, like the real
textarea decode) instantiating `dec`. -/
theorem C1_serialize_parse_roundtrip_witness :
    ∃ f, parseXMLToFeedDoc decodeNamedEntities (feedTreeMain (str "T")
        (str "D") (str "https://e.com") (str "now")
        [⟨str "A", str "https://e.com/a", str "Hello & world", str "pd",
          str "https://e.com/i.jpg"⟩]) = .ok f ∧
      f.title = str "T" ∧ f.link = str "https://e.com" ∧
      f.description = str "D" ∧
      f.items.map (fun p => (p.title, p.link, p.description)) =
        [(str "A", str "https://e.com/a", str "Hello & world")] := by
  have h := C1_serialize_parse_roundtrip decodeNamedEntities
    decodeNamedEntities_of_ampInert (str "T") (str "D")
    (str "https://e.com") (str "now")
    [⟨str "A", str "https://e.com/a", str "Hello & world", str "pd",
      str "https://e.com/i.jpg"⟩]
    rfl (by decide) (by decide) rfl (by decide) (by decide) rfl
    (by decide)
    (fun it hmem => by
      rw [List.mem_singleton] at hmem
      subst hmem
      unfold itemRoundTripOk
      decide)
  obtain ⟨f, h1, h2, h3, h4, h5⟩ := h.2
  refine ⟨f, h1, h2, h3, h4, ?_⟩
  rw [h5]
  rfl

end RSSGen
